import Mathlib

/-!
Shallow embedding of the transitive-dependency risk aggregation engine of
the oss-maintainance-cost-analyser repository, together with theorems
checking the natural-language specification against it.

Numbers: JavaScript numeric values are modelled as rationals, with
Math.round modelled as floor of x + 1/2 (JavaScript rounds halves toward
positive infinity).  Falsy-value defaulting (the JavaScript `||` operator)
is modelled explicitly wherever the source uses it, since `0` and the
empty string are falsy in JavaScript.
-/

/-- JavaScript Math.round: round half toward positive infinity. -/
def jsRound (q : ℚ) : ℤ := ⌊q + 1/2⌋

/-- Math.max(0, Math.min(100, s)) as it appears throughout the scoring code. -/
def clamp100 (s : ℚ) : ℚ := max 0 (min 100 s)

/-- CVEMetrics record, as produced by calculateCVEMetrics in src/api/osv.js
and consumed by the scoring module.  Only the fields the scoring code reads
are modelled. -/
structure CVEMetrics where
  totalCVEs : ℕ
  avgCVEsPerYear : ℚ
  criticalCVEsPerYear : ℚ
  highCVEsPerYear : ℚ
  bySeverityCRITICAL : ℕ
  bySeverityHIGH : ℕ
deriving DecidableEq, Repr

/-- MaintenanceMetrics record from calculateMaintenanceMetrics in
src/api/depsDev.js; only the fields read downstream are modelled.
daysSinceLastRelease is null in the source when no release date is known. -/
structure MaintenanceMetrics where
  score : ℚ
  daysSinceLastRelease : Option ℤ
  releaseFrequency : String
deriving DecidableEq, Repr

/-- ComplexityMetrics record from calculateComplexityMetrics in
src/api/depsDev.js. -/
structure ComplexityMetrics where
  score : ℚ
  directDependencies : ℤ
  totalDependencies : ℤ
  complexityLevel : String
deriving DecidableEq, Repr

/-- The packageMetrics argument of calculateCompositeScore: the object
built by getPackageMetrics, whose maintenance and complexity fields the
scoring code reads through optional chaining. -/
structure PackageMetrics where
  maintenance : Option MaintenanceMetrics
  complexity : Option ComplexityMetrics
deriving DecidableEq, Repr

/-- The avgCVEsPerYear penalty update of calculateCVEScore
(src/unnamed/part_004, lines 29 to 33), applied to the running score. -/
def cveAvgStep (score avgPerYear : ℚ) : ℚ :=
  if avgPerYear > 10 then score - 70
  else if avgPerYear > 5 then score - 50
  else if avgPerYear > 2 then score - 30
  else if avgPerYear > 1 then score - 20
  else if avgPerYear > 0.5 then score - 10
  else score

/-- The criticalCVEsPerYear penalty update of calculateCVEScore
(lines 39 to 41). -/
def cveCriticalStep (score criticalPerYear : ℚ) : ℚ :=
  if criticalPerYear > 2 then score - 20
  else if criticalPerYear > 1 then score - 15
  else if criticalPerYear > 0.5 then score - 10
  else score

/-- The highCVEsPerYear penalty update of calculateCVEScore
(lines 43 to 44). -/
def cveHighStep (score highPerYear : ℚ) : ℚ :=
  if highPerYear > 3 then score - 15
  else if highPerYear > 1 then score - 10
  else score

/-- calculateCVEScore from the scoring module (src/unnamed/part_004,
lines 20 to 47): 100 for no known CVEs, otherwise 100 reduced in sequence
by the three penalty band groups, clamped to [0, 100]. -/
def calculateCVEScore (cveMetrics : CVEMetrics) : ℚ :=
  if cveMetrics.totalCVEs = 0 then 100
  else
    clamp100 (cveHighStep
      (cveCriticalStep (cveAvgStep 100 cveMetrics.avgCVEsPerYear)
        cveMetrics.criticalCVEsPerYear)
      cveMetrics.highCVEsPerYear)

/-- calculateTechnicalLagScore from the scoring module (lines 55 to 71).
The source is called with `packageMetrics.maintenance || \x7b\x7d`; the
none case models the empty object, whose daysSinceLastRelease is undefined
and hence defaulted to 0 by `|| 0`. -/
def calculateTechnicalLagScore (cveMetrics : CVEMetrics)
    (maintenanceMetrics : Option MaintenanceMetrics) : ℚ :=
  let daysSinceRelease : ℤ :=
    (maintenanceMetrics.bind (·.daysSinceLastRelease)).getD 0
  let score : ℚ :=
    if daysSinceRelease > 730 then 100 - 50
    else if daysSinceRelease > 365 then 100 - 30
    else if daysSinceRelease > 180 then 100 - 15
    else 100
  let recentCVEs : ℕ := cveMetrics.bySeverityCRITICAL + cveMetrics.bySeverityHIGH
  let score :=
    if recentCVEs > 5 then score - 40
    else if recentCVEs > 2 then score - 25
    else if recentCVEs > 0 then score - 15
    else score
  clamp100 score

/-- Risk level tiers. -/
inductive RiskLevel
  | LOW
  | MEDIUM
  | ELEVATED
  | HIGH
  | CRITICAL
deriving DecidableEq, Repr

/-- getRiskLevel from the scoring module (lines 111 to 117). -/
def getRiskLevel (score : ℤ) : RiskLevel :=
  if score ≥ 80 then .LOW
  else if score ≥ 60 then .MEDIUM
  else if score ≥ 40 then .ELEVATED
  else if score ≥ 20 then .HIGH
  else .CRITICAL

/-- JavaScript `x?.score || 50` on an optional metrics score: an absent
record, an absent field, or a score of 0 (falsy) all yield 50. -/
def jsScoreOr50 (score : Option ℚ) : ℚ :=
  match score with
  | some s => if s = 0 then 50 else s
  | none => 50

/-- JavaScript `x || 0` on an optional integer (used for
directDependencies inside estimateMaintenanceHours). -/
def jsIntOr0 (n : Option ℤ) : ℤ := n.getD 0

/-- estimateMaintenanceHours from the scoring module (lines 78 to 104);
its argument is the object holding cve metrics and the packageMetrics
metadata. -/
def estimateMaintenanceHours (cve : CVEMetrics) (metadata : PackageMetrics) : ℤ :=
  let hours : ℚ := 0
  let hours := hours + 2
  let avgCVEsPerYear := cve.avgCVEsPerYear
  let hours := hours + avgCVEsPerYear * 2
  let criticalPerYear := cve.criticalCVEsPerYear
  let hours := hours + criticalPerYear * 4
  let directDeps := jsIntOr0 (metadata.complexity.map (·.directDependencies))
  let hours := hours + (directDeps : ℚ) * 0.2
  let hours :=
    if (metadata.maintenance.map (·.releaseFrequency)) = some "abandoned" then hours + 10
    else if (metadata.maintenance.map (·.releaseFrequency)) = some "low" then hours + 5
    else hours
  jsRound hours

/-- Output of calculateCompositeScore; the breakdown sub-records are
flattened to their score fields (their weight and weightedScore fields are
echoes of these scores and the fixed weight table). -/
structure CompositeScore where
  totalScore : ℤ
  riskLevel : RiskLevel
  estimatedAnnualMaintenanceHours : ℤ
  cveScore : ℚ
  maintenanceScore : ℚ
  complexityScore : ℚ
  technicalLagScore : ℚ
  communityScore : ℚ
deriving DecidableEq, Repr

/-- calculateCompositeScore from the scoring module (lines 125 to 195).
The weights are 0.50, 0.10, 0.15, 0.15, 0.10.  Note the JavaScript
`packageMetrics.maintenance?.score || 50` defaulting, modelled by
jsScoreOr50. -/
def calculateCompositeScore (cveMetrics : CVEMetrics)
    (packageMetrics : PackageMetrics) : CompositeScore :=
  let cveScore := calculateCVEScore cveMetrics
  let maintenanceScore := jsScoreOr50 (packageMetrics.maintenance.map (·.score))
  let complexityScore := jsScoreOr50 (packageMetrics.complexity.map (·.score))
  let technicalLagScore :=
    calculateTechnicalLagScore cveMetrics packageMetrics.maintenance
  let communityScore : ℚ := 50
  let compositeScore := jsRound (
    cveScore * 0.50 +
    maintenanceScore * 0.10 +
    complexityScore * 0.15 +
    technicalLagScore * 0.15 +
    communityScore * 0.10)
  let estimatedHours := estimateMaintenanceHours cveMetrics packageMetrics
  let riskLevel := getRiskLevel compositeScore
  { totalScore := compositeScore
    riskLevel := riskLevel
    estimatedAnnualMaintenanceHours := estimatedHours
    cveScore := cveScore
    maintenanceScore := maintenanceScore
    complexityScore := complexityScore
    technicalLagScore := technicalLagScore
    communityScore := communityScore }

/-! Specification-side definitions, written from the words of the spec,
used to compare against the source functions. -/

/-- Spec-worded CVE sub-score (section 4.9 of the spec): penalty bands on
avgCVEsPerYear. -/
def specAvgPenalty (avg : ℚ) : ℚ :=
  if avg > 10 then 70
  else if avg > 5 then 50
  else if avg > 2 then 30
  else if avg > 1 then 20
  else if avg > 0.5 then 10
  else 0

/-- Spec-worded penalty bands on criticalCVEsPerYear. -/
def specCriticalPenalty (crit : ℚ) : ℚ :=
  if crit > 2 then 20
  else if crit > 1 then 15
  else if crit > 0.5 then 10
  else 0

/-- Spec-worded penalty bands on highCVEsPerYear. -/
def specHighPenalty (high : ℚ) : ℚ :=
  if high > 3 then 15
  else if high > 1 then 10
  else 0

/-- Spec-worded CVE sub-score: 100 for zero findings, otherwise 100 minus
the three penalty bands, clamped to [0, 100]. -/
def specCVEScore (m : CVEMetrics) : ℚ :=
  if m.totalCVEs = 0 then 100
  else clamp100 (100 - specAvgPenalty m.avgCVEsPerYear
      - specCriticalPenalty m.criticalCVEsPerYear
      - specHighPenalty m.highCVEsPerYear)

/-- Spec-worded total score of claim C1: round of the weighted sum where
the maintenance and complexity sub-scores are exactly the score fields of
the supplied metrics records and the community sub-score is 50. -/
def claimC1TotalScore (m : CVEMetrics) (mm : MaintenanceMetrics)
    (cm : ComplexityMetrics) : ℤ :=
  jsRound ((0.50 : ℚ) * calculateCVEScore m
    + 0.10 * mm.score
    + 0.15 * cm.score
    + 0.15 * calculateTechnicalLagScore m (some mm)
    + 0.10 * 50)

/-- versionInfo argument of calculateComplexityMetrics: the deps.dev
version record, whose dependencies field (the declared direct dependency
list) may be absent.  Entries are modelled by their names. -/
structure VersionInfo where
  dependencies : Option (List String)
deriving DecidableEq, Repr

/-- The optional overrides argument of calculateComplexityMetrics. -/
structure ComplexityOverrides where
  directDependencies : Option ℤ
  totalDependencies : Option ℤ
deriving DecidableEq, Repr

/-- The total-dependency penalty update of calculateComplexityMetrics
(src/api/depsDev.js, lines 166 to 169), applied to the running score. -/
def complexityTotalStep (score : ℚ) (totalDeps : ℤ) : ℚ :=
  if totalDeps > 500 then score - 50
  else if totalDeps > 200 then score - 35
  else if totalDeps > 100 then score - 20
  else if totalDeps > 50 then score - 10
  else score

/-- The direct-dependency penalty update of calculateComplexityMetrics
(lines 172 to 175). -/
def complexityDirectStep (score : ℚ) (directDeps : ℤ) : ℚ :=
  if directDeps > 50 then score - 20
  else if directDeps > 30 then score - 15
  else if directDeps > 15 then score - 10
  else if directDeps > 5 then score - 5
  else score

/-- calculateComplexityMetrics from src/api/depsDev.js (lines 149 to 191).
When versionInfo or its dependencies list is absent, the source returns
early with score 100 and the override counts defaulted through `|| 0`;
otherwise the counts come from the `??` chain and the score from the two
penalty band groups, clamped. -/
def calculateComplexityMetrics (versionInfo : Option VersionInfo)
    (overrides : ComplexityOverrides) : ComplexityMetrics :=
  match versionInfo.bind (·.dependencies) with
  | none =>
    { score := 100
      directDependencies := jsIntOr0 overrides.directDependencies
      totalDependencies := jsIntOr0 overrides.totalDependencies
      complexityLevel := "low" }
  | some deps =>
    let directDeps : ℤ := overrides.directDependencies.getD deps.length
    let totalDeps : ℤ := overrides.totalDependencies.getD (directDeps * 15)
    { score := clamp100 (complexityDirectStep (complexityTotalStep 100 totalDeps) directDeps)
      directDependencies := directDeps
      totalDependencies := totalDeps
      complexityLevel :=
        if totalDeps > 500 then "very high"
        else if totalDeps > 200 then "high"
        else if totalDeps > 50 then "moderate"
        else "low" }

/-- Spec-worded total-dependency penalty bands of section 4.8. -/
def specTotalDepPenalty (total : ℤ) : ℚ :=
  if total > 500 then 50
  else if total > 200 then 35
  else if total > 100 then 20
  else if total > 50 then 10
  else 0

/-- Spec-worded direct-dependency penalty bands of section 4.8. -/
def specDirectDepPenalty (direct : ℤ) : ℚ :=
  if direct > 50 then 20
  else if direct > 30 then 15
  else if direct > 15 then 10
  else if direct > 5 then 5
  else 0

/-- Spec-worded complexity score: 100 minus both band groups, clamped. -/
def specComplexityScore (direct total : ℤ) : ℚ :=
  clamp100 (100 - specTotalDepPenalty total - specDirectDepPenalty direct)

/-- Spec-worded complexity level from total dependencies. -/
def specComplexityLevel (total : ℤ) : String :=
  if total > 500 then "very high"
  else if total > 200 then "high"
  else if total > 50 then "moderate"
  else "low"

/-! Helper bound lemmas for the scoring functions. -/

theorem clamp100_nonneg (s : ℚ) : 0 ≤ clamp100 s := le_max_left 0 _

theorem clamp100_le (s : ℚ) : clamp100 s ≤ 100 :=
  max_le (by norm_num) (min_le_left 100 s)

theorem calculateCVEScore_bounds (m : CVEMetrics) :
    0 ≤ calculateCVEScore m ∧ calculateCVEScore m ≤ 100 := by
  unfold calculateCVEScore
  split
  · norm_num
  · exact ⟨clamp100_nonneg _, clamp100_le _⟩

theorem calculateTechnicalLagScore_bounds (m : CVEMetrics)
    (mm : Option MaintenanceMetrics) :
    0 ≤ calculateTechnicalLagScore m mm ∧ calculateTechnicalLagScore m mm ≤ 100 :=
  ⟨clamp100_nonneg _, clamp100_le _⟩

theorem jsRound_bounds (q : ℚ) (h0 : 0 ≤ q) (h1 : q ≤ 100) :
    0 ≤ jsRound q ∧ jsRound q ≤ 100 := by
  unfold jsRound
  constructor
  · have : (0 : ℚ) ≤ q + 1/2 := by linarith
    exact_mod_cast Int.le_floor.mpr (by exact_mod_cast this)
  · have : q + 1/2 ≤ 100 + 1/2 := by linarith
    have h := Int.floor_le_floor this
    have h2 : (⌊(100 + 1/2 : ℚ)⌋ : ℤ) = 100 := by norm_num
    omega

theorem getRiskLevel_table :
    getRiskLevel 80 = .LOW ∧ getRiskLevel 79 = .MEDIUM ∧ getRiskLevel 60 = .MEDIUM ∧
    getRiskLevel 59 = .ELEVATED ∧ getRiskLevel 40 = .ELEVATED ∧ getRiskLevel 39 = .HIGH ∧
    getRiskLevel 20 = .HIGH ∧ getRiskLevel 19 = .CRITICAL ∧ getRiskLevel 0 = .CRITICAL := by
  refine ⟨?_, ?_, ?_, ?_, ?_, ?_, ?_, ?_, ?_⟩ <;> decide

/-- C7: calculateCVEScore agrees with the spec-worded band formula: 100
for zero total findings, otherwise 100 reduced by the avgCVEsPerYear,
criticalCVEsPerYear and highCVEsPerYear bands, clamped to [0, 100]. -/
theorem cveAvgStep_eq (s a : ℚ) : cveAvgStep s a = s - specAvgPenalty a := by
  unfold cveAvgStep specAvgPenalty
  split_ifs <;> ring

theorem cveCriticalStep_eq (s c : ℚ) : cveCriticalStep s c = s - specCriticalPenalty c := by
  unfold cveCriticalStep specCriticalPenalty
  split_ifs <;> ring

theorem cveHighStep_eq (s h : ℚ) : cveHighStep s h = s - specHighPenalty h := by
  unfold cveHighStep specHighPenalty
  split_ifs <;> ring

theorem claim_C7_cve_score (m : CVEMetrics) :
    calculateCVEScore m = specCVEScore m := by
  unfold calculateCVEScore specCVEScore
  rw [cveAvgStep_eq, cveCriticalStep_eq, cveHighStep_eq]

/-- C1 counterexample: with a supplied MaintenanceMetrics record whose
score field is 0, the composite total score is not the rounded weighted
sum using that score field; the JavaScript `|| 50` replaces a zero
(falsy) maintenance score by 50, so the code yields 90 where the claim
says 85. -/
theorem claim_C1_counterexample :
    ¬ ((calculateCompositeScore ⟨0, 0, 0, 0, 0, 0⟩
          ⟨some ⟨0, some 0, "moderate"⟩, some ⟨100, 0, 0, "low"⟩⟩).totalScore =
        claimC1TotalScore ⟨0, 0, 0, 0, 0, 0⟩ ⟨0, some 0, "moderate"⟩ ⟨100, 0, 0, "low"⟩) := by
  norm_num [calculateCompositeScore, claimC1TotalScore, calculateCVEScore,
    calculateTechnicalLagScore, jsScoreOr50, clamp100, jsRound]

/-- C1 amended: the composite total score is the rounding of
0.50 x cve sub-score + 0.10 x maintenance + 0.15 x complexity +
0.15 x technical lag + 0.10 x 50, where the maintenance and complexity
sub-scores are the score fields of the supplied records except that an
absent record or a zero score is replaced by 50. -/
theorem claim_C1_amended (m : CVEMetrics) (pm : PackageMetrics) :
    (calculateCompositeScore m pm).totalScore =
      jsRound ((0.50 : ℚ) * calculateCVEScore m
        + 0.10 * jsScoreOr50 (pm.maintenance.map (·.score))
        + 0.15 * jsScoreOr50 (pm.complexity.map (·.score))
        + 0.15 * calculateTechnicalLagScore m pm.maintenance
        + 0.10 * 50) := by
  show jsRound _ = jsRound _
  congr 1
  ring

/-- Bounds for the jsScoreOr50 defaulting, given an in-range or absent
score. -/
theorem jsScoreOr50_bounds (s : Option ℚ) (h : ∀ q ∈ s, 0 ≤ q ∧ q ≤ 100) :
    0 ≤ jsScoreOr50 s ∧ jsScoreOr50 s ≤ 100 := by
  match s with
  | none => norm_num [jsScoreOr50]
  | some q =>
    have hq := h q rfl
    simp only [jsScoreOr50]
    split_ifs
    · norm_num
    · exact hq

/-- C2: when the supplied maintenance and complexity records carry scores
in [0, 100] (as the calculators guarantee), the composite total score and
every sub-score lie in [0, 100], the risk level is computed from the
total score by getRiskLevel, and getRiskLevel matches the boundary table
80 LOW, 79 MEDIUM, 60 MEDIUM, 59 ELEVATED, 40 ELEVATED, 39 HIGH, 20 HIGH,
19 CRITICAL, 0 CRITICAL. -/
theorem claim_C2_bounds_and_risk (m : CVEMetrics) (pm : PackageMetrics)
    (hm : ∀ mm ∈ pm.maintenance, 0 ≤ mm.score ∧ mm.score ≤ 100)
    (hc : ∀ cm ∈ pm.complexity, 0 ≤ cm.score ∧ cm.score ≤ 100) :
    (0 ≤ (calculateCompositeScore m pm).totalScore ∧
      (calculateCompositeScore m pm).totalScore ≤ 100) ∧
    (0 ≤ (calculateCompositeScore m pm).cveScore ∧
      (calculateCompositeScore m pm).cveScore ≤ 100) ∧
    (0 ≤ (calculateCompositeScore m pm).maintenanceScore ∧
      (calculateCompositeScore m pm).maintenanceScore ≤ 100) ∧
    (0 ≤ (calculateCompositeScore m pm).complexityScore ∧
      (calculateCompositeScore m pm).complexityScore ≤ 100) ∧
    (0 ≤ (calculateCompositeScore m pm).technicalLagScore ∧
      (calculateCompositeScore m pm).technicalLagScore ≤ 100) ∧
    (0 ≤ (calculateCompositeScore m pm).communityScore ∧
      (calculateCompositeScore m pm).communityScore ≤ 100) ∧
    (calculateCompositeScore m pm).riskLevel =
      getRiskLevel (calculateCompositeScore m pm).totalScore ∧
    (getRiskLevel 80 = .LOW ∧ getRiskLevel 79 = .MEDIUM ∧ getRiskLevel 60 = .MEDIUM ∧
      getRiskLevel 59 = .ELEVATED ∧ getRiskLevel 40 = .ELEVATED ∧ getRiskLevel 39 = .HIGH ∧
      getRiskLevel 20 = .HIGH ∧ getRiskLevel 19 = .CRITICAL ∧ getRiskLevel 0 = .CRITICAL) := by
  obtain ⟨hcve0, hcve1⟩ := calculateCVEScore_bounds m
  obtain ⟨hlag0, hlag1⟩ := calculateTechnicalLagScore_bounds m pm.maintenance
  obtain ⟨hms0, hms1⟩ := jsScoreOr50_bounds (pm.maintenance.map (·.score))
    (by intro q hq; obtain ⟨mm, hmm, rfl⟩ := Option.map_eq_some'.mp hq; exact hm mm hmm)
  obtain ⟨hcs0, hcs1⟩ := jsScoreOr50_bounds (pm.complexity.map (·.score))
    (by intro q hq; obtain ⟨cm, hcm, rfl⟩ := Option.map_eq_some'.mp hq; exact hc cm hcm)
  refine ⟨?_, ⟨hcve0, hcve1⟩, ⟨hms0, hms1⟩, ⟨hcs0, hcs1⟩, ⟨hlag0, hlag1⟩,
    by norm_num [calculateCompositeScore], rfl, getRiskLevel_table⟩
  exact jsRound_bounds _ (by nlinarith) (by nlinarith)

/-- C2 witness at a concrete input: a package with maintenance score 80
and complexity score 95. -/
theorem claim_C2_witness :
    0 ≤ (calculateCompositeScore ⟨2, 1.2, 0.3, 0.5, 1, 1⟩
        ⟨some ⟨80, some 100, "active"⟩, some ⟨95, 3, 20, "low"⟩⟩).totalScore ∧
    (calculateCompositeScore ⟨2, 1.2, 0.3, 0.5, 1, 1⟩
        ⟨some ⟨80, some 100, "active"⟩, some ⟨95, 3, 20, "low"⟩⟩).totalScore ≤ 100 :=
  (claim_C2_bounds_and_risk ⟨2, 1.2, 0.3, 0.5, 1, 1⟩
    ⟨some ⟨80, some 100, "active"⟩, some ⟨95, 3, 20, "low"⟩⟩
    (by intro mm hmm; simp only [Option.mem_def, Option.some.injEq] at hmm
        subst hmm; norm_num)
    (by intro cm hcm; simp only [Option.mem_def, Option.some.injEq] at hcm
        subst hcm; norm_num)).1

theorem complexityTotalStep_eq (s : ℚ) (t : ℤ) :
    complexityTotalStep s t = s - specTotalDepPenalty t := by
  unfold complexityTotalStep specTotalDepPenalty
  split_ifs <;> ring

theorem complexityDirectStep_eq (s : ℚ) (d : ℤ) :
    complexityDirectStep s d = s - specDirectDepPenalty d := by
  unfold complexityDirectStep specDirectDepPenalty
  split_ifs <;> ring

/-- C8 counterexample: with no version info but an override of 600 total
dependencies, the code returns score 100 (its early return ignores the
overrides for scoring), while the claimed band reduction would give 50. -/
theorem claim_C8_counterexample :
    ¬ ((calculateComplexityMetrics none ⟨none, some 600⟩).score =
        specComplexityScore
          (calculateComplexityMetrics none ⟨none, some 600⟩).directDependencies
          (calculateComplexityMetrics none ⟨none, some 600⟩).totalDependencies) := by
  norm_num [calculateComplexityMetrics, specComplexityScore, specTotalDepPenalty,
    specDirectDepPenalty, clamp100, jsIntOr0]

/-- C8 amended: when the input carries a declared dependency list, the
counts come from the overrides (else the declared count, and estimated
total = direct x 15) and the score is 100 reduced by the total and direct
dependency bands, clamped; when the input is absent or lacks a declared
dependency list - even if overrides are given - the score is 100, the
counts are the overrides defaulted to zero, and the level is low; in
particular no input and no overrides yields score 100, zero counts, low. -/
theorem claim_C8_amended (versionInfo : Option VersionInfo)
    (overrides : ComplexityOverrides) :
    (∀ deps, versionInfo.bind (·.dependencies) = some deps →
      calculateComplexityMetrics versionInfo overrides =
        { score := specComplexityScore
            (overrides.directDependencies.getD deps.length)
            (overrides.totalDependencies.getD
              ((overrides.directDependencies.getD deps.length) * 15))
          directDependencies := overrides.directDependencies.getD deps.length
          totalDependencies := overrides.totalDependencies.getD
            ((overrides.directDependencies.getD deps.length) * 15)
          complexityLevel := specComplexityLevel
            (overrides.totalDependencies.getD
              ((overrides.directDependencies.getD deps.length) * 15)) }) ∧
    (versionInfo.bind (·.dependencies) = none →
      calculateComplexityMetrics versionInfo overrides =
        { score := 100
          directDependencies := overrides.directDependencies.getD 0
          totalDependencies := overrides.totalDependencies.getD 0
          complexityLevel := "low" }) ∧
    calculateComplexityMetrics none ⟨none, none⟩ =
      { score := 100, directDependencies := 0, totalDependencies := 0,
        complexityLevel := "low" } := by
  refine ⟨?_, ?_, rfl⟩
  · intro deps hdeps
    unfold calculateComplexityMetrics
    rw [hdeps]
    simp only [specComplexityScore, specComplexityLevel]
    rw [complexityTotalStep_eq, complexityDirectStep_eq]
  · intro hnone
    unfold calculateComplexityMetrics
    rw [hnone]
    rfl

/-- C8 witness: a version record declaring six dependencies and no
overrides yields counts 6 and 90 and score 100 - 10 - 5 = 85. -/
theorem claim_C8_witness :
    calculateComplexityMetrics
        (some ⟨some ["d1", "d2", "d3", "d4", "d5", "d6"]⟩) ⟨none, none⟩ =
      { score := 85, directDependencies := 6, totalDependencies := 90,
        complexityLevel := "moderate" } := by
  have h := (claim_C8_amended (some ⟨some ["d1", "d2", "d3", "d4", "d5", "d6"]⟩)
    ⟨none, none⟩).1 ["d1", "d2", "d3", "d4", "d5", "d6"] rfl
  rw [h]
  norm_num [specComplexityScore, specComplexityLevel, specTotalDepPenalty,
    specDirectDepPenalty, clamp100]

/-! The project aggregator (src/analyzer.js): calculateProjectSummary and
the records it consumes.  The JavaScript Array.prototype.sort with the
comparator on a.score.totalScore - b.score.totalScore is a stable
ascending sort by total score; it is modelled by List.insertionSort over
the non-strict key order, which is stable, and the stability is proved
below as a filter invariance. -/

/-- The score record stored on an analyzed package, as read by
calculateProjectSummary. -/
structure SummaryScore where
  totalScore : ℤ
  riskLevel : RiskLevel
  estimatedAnnualMaintenanceHours : ℤ
deriving DecidableEq, Repr

/-- The cveMetrics fields read by calculateProjectSummary. -/
structure PackageCVESummary where
  totalCVEs : ℕ
  bySeverityCRITICAL : ℕ
deriving DecidableEq, Repr

/-- One entry of the packages list passed to calculateProjectSummary; a
package whose analysis failed carries no score record (and no metrics). -/
structure AnalyzedPackage where
  packageName : String
  score : Option SummaryScore
  cveMetrics : Option PackageCVESummary
deriving DecidableEq, Repr

/-- The view of a package in the highestRiskPackages list. -/
structure RiskPackageView where
  name : String
  score : ℤ
  risk : RiskLevel
deriving DecidableEq, Repr

/-- The riskDistribution histogram. -/
structure RiskDistribution where
  LOW : ℕ
  MEDIUM : ℕ
  ELEVATED : ℕ
  HIGH : ℕ
  CRITICAL : ℕ
deriving DecidableEq, Repr

/-- riskCounts[pkg.score.riskLevel]++ from the summary loop. -/
def RiskDistribution.incr (d : RiskDistribution) : RiskLevel → RiskDistribution
  | .LOW => { d with LOW := d.LOW + 1 }
  | .MEDIUM => { d with MEDIUM := d.MEDIUM + 1 }
  | .ELEVATED => { d with ELEVATED := d.ELEVATED + 1 }
  | .HIGH => { d with HIGH := d.HIGH + 1 }
  | .CRITICAL => { d with CRITICAL := d.CRITICAL + 1 }

/-- Read one tier of the histogram. -/
def RiskDistribution.get (d : RiskDistribution) : RiskLevel → ℕ
  | .LOW => d.LOW
  | .MEDIUM => d.MEDIUM
  | .ELEVATED => d.ELEVATED
  | .HIGH => d.HIGH
  | .CRITICAL => d.CRITICAL

/-- pkg.score.totalScore; only ever applied to packages that carry a
score (validPackages). -/
def pkgTotalScore (p : AnalyzedPackage) : ℤ :=
  match p.score with
  | some s => s.totalScore
  | none => 0

/-- pkg.score.riskLevel; only ever applied to packages with a score. -/
def pkgRiskLevel (p : AnalyzedPackage) : RiskLevel :=
  match p.score with
  | some s => s.riskLevel
  | none => .CRITICAL

/-- pkg.score.estimatedAnnualMaintenanceHours || 0. -/
def pkgHours (p : AnalyzedPackage) : ℤ :=
  match p.score with
  | some s => s.estimatedAnnualMaintenanceHours
  | none => 0

/-- pkg.cveMetrics?.totalCVEs || 0. -/
def pkgTotalCVEs (p : AnalyzedPackage) : ℕ :=
  match p.cveMetrics with
  | some c => c.totalCVEs
  | none => 0

/-- pkg.cveMetrics?.bySeverity?.CRITICAL || 0. -/
def pkgCriticalCVEs (p : AnalyzedPackage) : ℕ :=
  match p.cveMetrics with
  | some c => c.bySeverityCRITICAL
  | none => 0

/-- Comparison key order used by the highest-risk sort: the JavaScript
comparator (a, b) returns a.score.totalScore - b.score.totalScore, an
ascending order on the total score. -/
def scoreLe (a b : AnalyzedPackage) : Prop := pkgTotalScore a ≤ pkgTotalScore b

instance : DecidableRel scoreLe := fun _ _ => Int.decLe _ _

instance : IsTotal AnalyzedPackage scoreLe := ⟨fun _ _ => Int.le_total _ _⟩

instance : IsTrans AnalyzedPackage scoreLe := ⟨fun _ _ _ => Int.le_trans⟩

/-- The ProjectSummary record (analysisDate, an aside of the current
clock, is not modelled). -/
structure ProjectSummary where
  averageScore : ℤ
  totalMaintenanceHours : ℤ
  totalCVEs : ℕ
  totalCriticalCVEs : ℕ
  riskDistribution : RiskDistribution
  highestRiskPackages : List RiskPackageView
deriving DecidableEq, Repr

/-- calculateProjectSummary from src/analyzer.js (lines 328 to 377):
filter to packages that carry a score, return null when none does,
otherwise aggregate the average, sums, histogram and the five
lowest-scoring packages under the stable ascending sort. -/
def calculateProjectSummary (packages : List AnalyzedPackage) : Option ProjectSummary :=
  let validPackages := packages.filter (·.score.isSome)
  if validPackages.length = 0 then none
  else
    let scores := validPackages.map pkgTotalScore
    let averageScore := jsRound ((scores.sum : ℚ) / (scores.length : ℚ))
    let riskCounts := validPackages.foldl (fun d p => d.incr (pkgRiskLevel p)) ⟨0, 0, 0, 0, 0⟩
    let totalMaintenanceHours := validPackages.foldl (fun acc p => acc + pkgHours p) 0
    let totalCVEs := validPackages.foldl (fun acc p => acc + pkgTotalCVEs p) 0
    let totalCriticalCVEs := validPackages.foldl (fun acc p => acc + pkgCriticalCVEs p) 0
    let highestRisk := ((validPackages.insertionSort scoreLe).take 5).map
      (fun p => RiskPackageView.mk p.packageName (pkgTotalScore p) (pkgRiskLevel p))
    some
      { averageScore := averageScore
        totalMaintenanceHours := totalMaintenanceHours
        totalCVEs := totalCVEs
        totalCriticalCVEs := totalCriticalCVEs
        riskDistribution := riskCounts
        highestRiskPackages := highestRisk }

/-! Helper lemmas about the summary aggregation. -/

theorem foldl_add_int (f : AnalyzedPackage → ℤ) (l : List AnalyzedPackage) (a : ℤ) :
    l.foldl (fun acc p => acc + f p) a = a + (l.map f).sum := by
  induction l generalizing a with
  | nil => simp
  | cons p ps ih => simp [List.foldl_cons, ih, add_assoc]

theorem foldl_add_nat (f : AnalyzedPackage → ℕ) (l : List AnalyzedPackage) (a : ℕ) :
    l.foldl (fun acc p => acc + f p) a = a + (l.map f).sum := by
  induction l generalizing a with
  | nil => simp
  | cons p ps ih => simp [List.foldl_cons, ih, add_assoc]

theorem RiskDistribution.get_incr (d : RiskDistribution) (r t : RiskLevel) :
    (d.incr r).get t = d.get t + (if r = t then 1 else 0) := by
  cases r <;> cases t <;> simp [RiskDistribution.incr, RiskDistribution.get]

theorem foldl_incr_get (l : List AnalyzedPackage) (d : RiskDistribution) (t : RiskLevel) :
    (l.foldl (fun d p => d.incr (pkgRiskLevel p)) d).get t =
      d.get t + (l.filter (fun p => pkgRiskLevel p == t)).length := by
  induction l generalizing d with
  | nil => simp
  | cons p ps ih =>
    rw [List.foldl_cons, ih, RiskDistribution.get_incr, List.filter_cons]
    by_cases h : pkgRiskLevel p = t <;> (simp [h]; try omega)

/-- Inserting an element into a list commutes with filtering on a score
key value: the inserted element lands before every element of equal key
(the core of stability). -/
theorem filter_orderedInsert_score (a : AnalyzedPackage) (l : List AnalyzedPackage) (s : ℤ) :
    (List.orderedInsert scoreLe a l).filter (fun x => pkgTotalScore x == s) =
      if pkgTotalScore a == s then
        a :: l.filter (fun x => pkgTotalScore x == s)
      else l.filter (fun x => pkgTotalScore x == s) := by
  induction l with
  | nil => simp [List.orderedInsert, List.filter_cons]
  | cons b bs ih =>
    by_cases hab : scoreLe a b
    · rw [List.orderedInsert, if_pos hab, List.filter_cons]
    · rw [List.orderedInsert, if_neg hab, List.filter_cons, ih]
      have hba : pkgTotalScore b < pkgTotalScore a := by
        simp only [scoreLe, not_le] at hab
        exact hab
      by_cases has : pkgTotalScore a = s
      · have hbs : pkgTotalScore b ≠ s := by omega
        simp [has, hbs]
      · simp [has, List.filter_cons]

/-- Stability of the highest-risk sort: for every score value, the
packages carrying that score appear in the sorted list exactly in their
original order. -/
theorem filter_insertionSort_score (l : List AnalyzedPackage) (s : ℤ) :
    (l.insertionSort scoreLe).filter (fun x => pkgTotalScore x == s) =
      l.filter (fun x => pkgTotalScore x == s) := by
  induction l with
  | nil => rfl
  | cons a as ih =>
    rw [List.insertionSort, filter_orderedInsert_score, List.filter_cons]
    by_cases h : pkgTotalScore a = s <;> simp [h, ih]

theorem RiskDistribution.eq_of_get (d e : RiskDistribution)
    (h : ∀ t, d.get t = e.get t) : d = e := by
  obtain ⟨a, b, c, x, y⟩ := d
  obtain ⟨a2, b2, c2, x2, y2⟩ := e
  have h1 := h .LOW
  have h2 := h .MEDIUM
  have h3 := h .ELEVATED
  have h4 := h .HIGH
  have h5 := h .CRITICAL
  simp only [RiskDistribution.get] at h1 h2 h3 h4 h5
  rw [h1, h2, h3, h4, h5]

theorem foldl_incr_eq (l : List AnalyzedPackage) :
    l.foldl (fun d p => d.incr (pkgRiskLevel p))
        (⟨0, 0, 0, 0, 0⟩ : RiskDistribution) =
      { LOW := (l.filter (fun p => pkgRiskLevel p == RiskLevel.LOW)).length
        MEDIUM := (l.filter (fun p => pkgRiskLevel p == RiskLevel.MEDIUM)).length
        ELEVATED := (l.filter (fun p => pkgRiskLevel p == RiskLevel.ELEVATED)).length
        HIGH := (l.filter (fun p => pkgRiskLevel p == RiskLevel.HIGH)).length
        CRITICAL := (l.filter (fun p => pkgRiskLevel p == RiskLevel.CRITICAL)).length } := by
  apply RiskDistribution.eq_of_get
  intro t
  rw [foldl_incr_get]
  cases t <;> simp [RiskDistribution.get]

/-- C9: for a non-empty list of packages that all carry scores, the
summary is present with averageScore the rounded mean of the total
scores, the hour and CVE fields the arithmetic sums, the histogram the
per-tier counts, and highestRiskPackages the first five packages of the
stable ascending sort by total score (sortedness, permutation and
stability of that sort are stated alongside); the empty list yields
none. -/
theorem claim_C9_project_summary (packages : List AnalyzedPackage)
    (hne : packages ≠ []) (hall : ∀ p ∈ packages, p.score.isSome) :
    (calculateProjectSummary packages = some
      { averageScore :=
          jsRound (((packages.map pkgTotalScore).sum : ℚ) / (packages.length : ℚ))
        totalMaintenanceHours := (packages.map pkgHours).sum
        totalCVEs := (packages.map pkgTotalCVEs).sum
        totalCriticalCVEs := (packages.map pkgCriticalCVEs).sum
        riskDistribution :=
          { LOW := (packages.filter (fun p => pkgRiskLevel p == RiskLevel.LOW)).length
            MEDIUM := (packages.filter (fun p => pkgRiskLevel p == RiskLevel.MEDIUM)).length
            ELEVATED := (packages.filter (fun p => pkgRiskLevel p == RiskLevel.ELEVATED)).length
            HIGH := (packages.filter (fun p => pkgRiskLevel p == RiskLevel.HIGH)).length
            CRITICAL := (packages.filter (fun p => pkgRiskLevel p == RiskLevel.CRITICAL)).length }
        highestRiskPackages := ((packages.insertionSort scoreLe).take 5).map
          (fun p => RiskPackageView.mk p.packageName (pkgTotalScore p) (pkgRiskLevel p)) }) ∧
    (packages.insertionSort scoreLe).Sorted scoreLe ∧
    List.Perm (packages.insertionSort scoreLe) packages ∧
    (∀ s : ℤ, (packages.insertionSort scoreLe).filter (fun p => pkgTotalScore p == s) =
      packages.filter (fun p => pkgTotalScore p == s)) ∧
    calculateProjectSummary [] = none := by
  have hfilter : packages.filter (·.score.isSome) = packages :=
    List.filter_eq_self.mpr (fun p hp => hall p hp)
  refine ⟨?_, List.sorted_insertionSort _ _, List.perm_insertionSort _ _,
    fun s => filter_insertionSort_score packages s, rfl⟩
  have hlen : ¬ packages.length = 0 := by
    rw [List.length_eq_zero]
    exact hne
  simp only [calculateProjectSummary, hfilter, if_neg hlen]
  rw [foldl_incr_eq, foldl_add_int, foldl_add_nat, foldl_add_nat, List.length_map]
  norm_num

/-- C9 witness: packages scoring 80 LOW (5 hours, 2 CVEs none critical)
and 60 MEDIUM (10 hours, 5 CVEs 1 critical) give averageScore 70, sums
15, 7 and 1, one LOW and one MEDIUM, and the MEDIUM package first in the
highest-risk list. -/
theorem claim_C9_witness :
    calculateProjectSummary
        [⟨"pkg-a", some ⟨80, .LOW, 5⟩, some ⟨2, 0⟩⟩,
         ⟨"pkg-b", some ⟨60, .MEDIUM, 10⟩, some ⟨5, 1⟩⟩] = some
      { averageScore := 70
        totalMaintenanceHours := 15
        totalCVEs := 7
        totalCriticalCVEs := 1
        riskDistribution := ⟨1, 1, 0, 0, 0⟩
        highestRiskPackages :=
          [⟨"pkg-b", 60, .MEDIUM⟩, ⟨"pkg-a", 80, .LOW⟩] } := by
  have h := (claim_C9_project_summary
    [⟨"pkg-a", some ⟨80, .LOW, 5⟩, some ⟨2, 0⟩⟩,
     ⟨"pkg-b", some ⟨60, .MEDIUM, 10⟩, some ⟨5, 1⟩⟩]
    (by simp) (by intro p hp; fin_cases hp <;> rfl)).1
  rw [h]
  norm_num [jsRound, pkgTotalScore, pkgHours, pkgTotalCVEs, pkgCriticalCVEs,
    pkgRiskLevel, List.insertionSort, List.orderedInsert, scoreLe,
    List.filter_cons]
  decide

/-- C10: calculateProjectSummary ignores every package entry without a
score record: the summary is unchanged when such entries are removed, and
it is null exactly when no entry carries a score, even for a non-empty
list. -/
theorem claim_C10_unscored_excluded (packages : List AnalyzedPackage) :
    calculateProjectSummary packages =
      calculateProjectSummary (packages.filter (·.score.isSome)) ∧
    (calculateProjectSummary packages = none ↔ ∀ p ∈ packages, p.score = none) := by
  constructor
  · unfold calculateProjectSummary
    rw [List.filter_filter]
    simp only [Bool.and_self]
  · have hiff : calculateProjectSummary packages = none ↔
        (packages.filter (·.score.isSome)).length = 0 := by
      by_cases h : (packages.filter (·.score.isSome)).length = 0
      · simp [calculateProjectSummary, h]
      · simp [calculateProjectSummary, h]
    rw [hiff, List.length_eq_zero, List.filter_eq_nil_iff]
    constructor
    · intro h p hp
      have := h p hp
      simpa [Option.not_isSome_iff_eq_none] using this
    · intro h p hp
      simp [Option.not_isSome_iff_eq_none, h p hp]

/-- C10 witness: a non-empty list whose only entry failed analysis (no
score record) yields a null summary. -/
theorem claim_C10_witness :
    calculateProjectSummary [⟨"broken-pkg", none, none⟩] = none :=
  (claim_C10_unscored_excluded [⟨"broken-pkg", none, none⟩]).2.mpr
    (by intro p hp; fin_cases hp; rfl)

/-! The OSV client (src/api/osv.js): batched vulnerability queries with a
shared cache, and deduplication of findings.  A JavaScript Map is
modelled as an insertion-ordered association list: get returns the first
binding, set overwrites in place or appends, iteration follows list
order.  The network is modelled as an oracle from package name to an
optional response; none stands for any failure (non-2xx, transport
error), which queryVulnerabilities degrades to an empty finding list. -/

/-- A vulnerability finding; only the identifier matters to the batch and
deduplication code, the payload stands for the rest of the object. -/
structure Vuln where
  id : Option String
  payload : String
deriving DecidableEq, Repr

/-- Map.get: first binding of the key, if any. -/
def mapGet {β : Type} (m : List (String × β)) (k : String) : Option β :=
  match m with
  | [] => none
  | (k2, v) :: rest => if k2 = k then some v else mapGet rest k

/-- Map.has. -/
def mapHas {β : Type} (m : List (String × β)) (k : String) : Bool :=
  (mapGet m k).isSome

/-- Map.set: overwrite the existing binding in place, else append. -/
def mapSet {β : Type} (m : List (String × β)) (k : String) (v : β) :
    List (String × β) :=
  match m with
  | [] => [(k, v)]
  | (k2, v2) :: rest => if k2 = k then (k2, v) :: rest else (k2, v2) :: mapSet rest k v

theorem mapGet_set_self {β : Type} (m : List (String × β)) (k : String) (v : β) :
    mapGet (mapSet m k v) k = some v := by
  induction m with
  | nil => simp [mapSet, mapGet]
  | cons e rest ih =>
    obtain ⟨k2, v2⟩ := e
    by_cases h : k2 = k
    · simp [mapSet, mapGet, h]
    · simp [mapSet, mapGet, h, ih]

theorem mapGet_set_ne {β : Type} (m : List (String × β)) (k x : String) (v : β)
    (h : x ≠ k) : mapGet (mapSet m k v) x = mapGet m x := by
  induction m with
  | nil => simp [mapSet, mapGet, Ne.symm h]
  | cons e rest ih =>
    obtain ⟨k2, v2⟩ := e
    by_cases h2 : k2 = k
    · subst h2
      simp [mapSet, mapGet, Ne.symm h]
    · simp only [mapSet, if_neg h2, mapGet]
      by_cases h3 : k2 = x <;> simp [h3, ih]

theorem mapHas_iff_mem_keys {β : Type} (m : List (String × β)) (k : String) :
    mapHas m k = true ↔ k ∈ m.map Prod.fst := by
  induction m with
  | nil => simp [mapHas, mapGet]
  | cons e rest ih =>
    obtain ⟨k2, v2⟩ := e
    by_cases h : k2 = k <;> simp [mapHas, mapGet, h, ← ih, Option.isSome_iff_exists]
    · intro he
      exact absurd he.symm h

theorem mapSet_eq_append {β : Type} (m : List (String × β)) (k : String) (v : β)
    (h : ¬ mapHas m k = true) : mapSet m k v = m ++ [(k, v)] := by
  induction m with
  | nil => simp [mapSet]
  | cons e rest ih =>
    obtain ⟨k2, v2⟩ := e
    by_cases h2 : k2 = k
    · exact absurd (by simp [mapHas, mapGet, h2]) h
    · have : ¬ mapHas rest k = true := by
        simpa [mapHas, mapGet, h2] using h
      simp [mapSet, h2, ih this]

/-- queryVulnerabilities from src/api/osv.js (lines 14 to 39) combined
with the `data.vulns || []` read at its call sites: a successful response
yields its finding list, any failure yields the empty list. -/
def queryVulnerabilities (fetchVulns : String → Option (List Vuln))
    (packageName : String) : List Vuln :=
  (fetchVulns packageName).getD []

/-- Shorthand for the map type used by the batch fetcher. -/
abbrev VulnMap := List (String × List Vuln)

/-- The partition loop of queryVulnerabilitiesBatch (src/api/osv.js,
lines 156 to 163): cached names are copied into results, the rest are
pushed onto uncachedNames in order. -/
def partitionCached (cache : VulnMap) (packageNames : List String)
    (results : VulnMap) (uncachedNames : List String) : VulnMap × List String :=
  match packageNames with
  | [] => (results, uncachedNames)
  | name :: rest =>
    if mapHas cache name then
      partitionCached cache rest (mapSet results name ((mapGet cache name).getD []))
        uncachedNames
    else
      partitionCached cache rest results (uncachedNames ++ [name])

/-- The write-back loop over one batch of results (lines 176 to 179):
each fetched (name, vulns) pair is set into the cache and the results. -/
def writeBatchPairs (pairs : List (String × List Vuln))
    (results cache : VulnMap) : VulnMap × VulnMap :=
  match pairs with
  | [] => (results, cache)
  | (name, vulns) :: rest =>
    writeBatchPairs rest (mapSet results name vulns) (mapSet cache name vulns)

/-- The batching loop of queryVulnerabilitiesBatch (lines 166 to 180):
slice off concurrency names, query them (all queries of a batch are
issued together; the model evaluates the same oracle), write every
result back, continue with the remainder.  The source would loop forever
on concurrency 0, so the model clamps the slice width to at least 1;
the clamp is invisible for every positive concurrency, in particular the
default 5. -/
def runBatches (fetchVulns : String → Option (List Vuln)) (concurrency : ℕ)
    (uncachedNames : List String) (results cache : VulnMap) : VulnMap × VulnMap :=
  match uncachedNames with
  | [] => (results, cache)
  | name :: rest =>
    let batch := (name :: rest).take (max concurrency 1)
    let batchResults := batch.map
      (fun n => (n, queryVulnerabilities fetchVulns n))
    let rc := writeBatchPairs batchResults results cache
    runBatches fetchVulns concurrency ((name :: rest).drop (max concurrency 1)) rc.1 rc.2
termination_by uncachedNames.length
decreasing_by
  simp only [List.length_drop, List.length_cons]
  have h1 : 1 ≤ max concurrency 1 := le_max_right _ _
  omega

/-- The result of one queryVulnerabilitiesBatch call: the returned
results map, the shared cache after the call, and the names for which a
network query was issued. -/
structure BatchResult where
  results : VulnMap
  cache : VulnMap
  queried : List String
deriving DecidableEq, Repr

/-- queryVulnerabilitiesBatch from src/api/osv.js (lines 151 to 183). -/
def queryVulnerabilitiesBatch (fetchVulns : String → Option (List Vuln))
    (packageNames : List String) (cache : VulnMap) (concurrency : ℕ) : BatchResult :=
  let part := partitionCached cache packageNames [] []
  let uncachedNames := part.2
  let rc := runBatches fetchVulns concurrency uncachedNames part.1 cache
  { results := rc.1, cache := rc.2, queried := uncachedNames }

/-- Sequential write-back of query results, one name at a time; chunking
into batches does not change the final maps, which the next lemmas make
precise. -/
def writeAll (fetchVulns : String → Option (List Vuln)) :
    List String → VulnMap × VulnMap → VulnMap × VulnMap
  | [], rc => rc
  | n :: rest, rc =>
    writeAll fetchVulns rest
      (mapSet rc.1 n (queryVulnerabilities fetchVulns n),
       mapSet rc.2 n (queryVulnerabilities fetchVulns n))

theorem writeBatchPairs_map (fetchVulns : String → Option (List Vuln))
    (l : List String) (r c : VulnMap) :
    writeBatchPairs (l.map (fun n => (n, queryVulnerabilities fetchVulns n))) r c =
      writeAll fetchVulns l (r, c) := by
  induction l generalizing r c with
  | nil => rfl
  | cons n rest ih => simp [writeBatchPairs, writeAll, ih]

theorem writeAll_append (fetchVulns : String → Option (List Vuln))
    (l1 l2 : List String) (rc : VulnMap × VulnMap) :
    writeAll fetchVulns (l1 ++ l2) rc =
      writeAll fetchVulns l2 (writeAll fetchVulns l1 rc) := by
  induction l1 generalizing rc with
  | nil => rfl
  | cons n rest ih => simp [writeAll, ih]

theorem runBatches_eq_writeAll_aux (fetchVulns : String → Option (List Vuln))
    (conc : ℕ) : ∀ (fuel : ℕ) (u : List String) (r c : VulnMap),
    u.length ≤ fuel → runBatches fetchVulns conc u r c = writeAll fetchVulns u (r, c) := by
  intro fuel
  induction fuel with
  | zero =>
    intro u r c h
    have hu : u = [] := List.eq_nil_of_length_eq_zero (Nat.le_zero.mp h)
    subst hu
    rw [runBatches, writeAll]
  | succ fuel ih =>
    intro u r c h
    match u with
    | [] => rw [runBatches, writeAll]
    | name :: rest =>
      rw [runBatches, writeBatchPairs_map, ih]
      · rw [← writeAll_append]
        congr 1
        exact List.take_append_drop _ _
      · have hmax : 1 ≤ max conc 1 := le_max_right _ _
        simp only [List.length_drop, List.length_cons]
        simp only [List.length_cons] at h
        omega

theorem runBatches_eq_writeAll (fetchVulns : String → Option (List Vuln))
    (conc : ℕ) (u : List String) (r c : VulnMap) :
    runBatches fetchVulns conc u r c = writeAll fetchVulns u (r, c) :=
  runBatches_eq_writeAll_aux fetchVulns conc u.length u r c le_rfl

theorem mapGet_writeAll (fetchVulns : String → Option (List Vuln))
    (u : List String) (rc : VulnMap × VulnMap) (x : String) :
    mapGet (writeAll fetchVulns u rc).1 x =
      (if x ∈ u then some (queryVulnerabilities fetchVulns x) else mapGet rc.1 x) ∧
    mapGet (writeAll fetchVulns u rc).2 x =
      (if x ∈ u then some (queryVulnerabilities fetchVulns x) else mapGet rc.2 x) := by
  induction u generalizing rc with
  | nil => simp [writeAll]
  | cons n rest ih =>
    rw [writeAll]
    obtain ⟨ih1, ih2⟩ := ih
      (mapSet rc.1 n (queryVulnerabilities fetchVulns n),
       mapSet rc.2 n (queryVulnerabilities fetchVulns n))
    constructor
    · rw [ih1]
      by_cases hx : x ∈ rest
      · simp [hx]
      · by_cases hxn : x = n
        · subst hxn
          simp [hx, mapGet_set_self]
        · simp [hx, hxn, mapGet_set_ne _ _ _ _ hxn]
    · rw [ih2]
      by_cases hx : x ∈ rest
      · simp [hx]
      · by_cases hxn : x = n
        · subst hxn
          simp [hx, mapGet_set_self]
        · simp [hx, hxn, mapGet_set_ne _ _ _ _ hxn]

theorem partitionCached_snd (cache : VulnMap) (names : List String)
    (r : VulnMap) (acc : List String) :
    (partitionCached cache names r acc).2 =
      acc ++ names.filter (fun n => !(mapHas cache n)) := by
  induction names generalizing r acc with
  | nil => simp [partitionCached]
  | cons name rest ih =>
    by_cases h : mapHas cache name
    · simp [partitionCached, h, ih]
    · simp [partitionCached, h, ih]

theorem mapGet_of_mapHas {β : Type} (m : List (String × β)) (k : String)
    (h : mapHas m k = true) (d : β) : mapGet m k = some ((mapGet m k).getD d) := by
  obtain ⟨v, hv⟩ := Option.isSome_iff_exists.mp h
  rw [hv]
  rfl

theorem mapGet_partitionCached_fst (cache : VulnMap) (names : List String)
    (r : VulnMap) (acc : List String) (x : String) :
    mapGet (partitionCached cache names r acc).1 x =
      if x ∈ names ∧ mapHas cache x = true then mapGet cache x else mapGet r x := by
  induction names generalizing r acc with
  | nil => simp [partitionCached]
  | cons name rest ih =>
    by_cases h : mapHas cache name
    · simp only [partitionCached, if_pos h]
      rw [ih]
      by_cases hmem : x ∈ rest ∧ mapHas cache x = true
      · rw [if_pos hmem, if_pos ⟨List.mem_cons_of_mem _ hmem.1, hmem.2⟩]
      · rw [if_neg hmem]
        by_cases hxn : x = name
        · subst hxn
          rw [mapGet_set_self, if_pos ⟨List.mem_cons_self _ _, h⟩]
          exact (mapGet_of_mapHas cache x h []).symm
        · rw [mapGet_set_ne _ _ _ _ hxn]
          rw [if_neg]
          intro hcon
          rcases hcon with ⟨hin, hhas⟩
          rcases List.mem_cons.mp hin with he | hr
          · exact hxn he
          · exact hmem ⟨hr, hhas⟩
    · simp only [partitionCached, if_neg h]
      rw [ih]
      by_cases hxn : x = name
      · subst hxn
        rw [if_neg (fun hc => h hc.2), if_neg (fun hc => h hc.2)]
      · by_cases hmem : x ∈ rest ∧ mapHas cache x = true
        · rw [if_pos hmem, if_pos ⟨List.mem_cons_of_mem _ hmem.1, hmem.2⟩]
        · rw [if_neg hmem, if_neg]
          intro hcon
          rcases hcon with ⟨hin, hhas⟩
          rcases List.mem_cons.mp hin with he | hr
          · exact hxn he
          · exact hmem ⟨hr, hhas⟩

/-- C4: queryVulnerabilitiesBatch assigns every requested name a finding
list (the cached value for cached names, the query result - empty on
failure - otherwise); cached names are never queried; every queried
name has its fetched result, including an empty list, written into the
shared cache; every uncached requested name is queried; and a failed
query yields an empty list for that name while every other name keeps
the value the first conjunct states. -/
theorem claim_C4_batch (fetchVulns : String → Option (List Vuln)) (conc : ℕ)
    (packageNames : List String) (cache : VulnMap) :
    (∀ n ∈ packageNames,
      mapGet (queryVulnerabilitiesBatch fetchVulns packageNames cache conc).results n =
        some (match mapGet cache n with
          | some v => v
          | none => queryVulnerabilities fetchVulns n)) ∧
    (∀ n, mapHas cache n = true →
      n ∉ (queryVulnerabilitiesBatch fetchVulns packageNames cache conc).queried) ∧
    (∀ n ∈ (queryVulnerabilitiesBatch fetchVulns packageNames cache conc).queried,
      mapGet (queryVulnerabilitiesBatch fetchVulns packageNames cache conc).cache n =
        some (queryVulnerabilities fetchVulns n)) ∧
    (∀ n ∈ packageNames, mapHas cache n = false →
      n ∈ (queryVulnerabilitiesBatch fetchVulns packageNames cache conc).queried) ∧
    (∀ n ∈ packageNames, mapHas cache n = false → fetchVulns n = none →
      mapGet (queryVulnerabilitiesBatch fetchVulns packageNames cache conc).results n =
        some []) := by
  have hq : (queryVulnerabilitiesBatch fetchVulns packageNames cache conc).queried =
      packageNames.filter (fun n => !(mapHas cache n)) := by
    simp only [queryVulnerabilitiesBatch]
    rw [partitionCached_snd]
    simp
  have hres : ∀ x,
      mapGet (queryVulnerabilitiesBatch fetchVulns packageNames cache conc).results x =
        if x ∈ packageNames.filter (fun n => !(mapHas cache n)) then
          some (queryVulnerabilities fetchVulns x)
        else mapGet (partitionCached cache packageNames [] []).1 x := by
    intro x
    simp only [queryVulnerabilitiesBatch]
    rw [runBatches_eq_writeAll, partitionCached_snd]
    simpa using (mapGet_writeAll fetchVulns
      (packageNames.filter (fun n => !(mapHas cache n)))
      ((partitionCached cache packageNames [] []).1, cache) x).1
  have hcache : ∀ x,
      mapGet (queryVulnerabilitiesBatch fetchVulns packageNames cache conc).cache x =
        if x ∈ packageNames.filter (fun n => !(mapHas cache n)) then
          some (queryVulnerabilities fetchVulns x)
        else mapGet cache x := by
    intro x
    simp only [queryVulnerabilitiesBatch]
    rw [runBatches_eq_writeAll, partitionCached_snd]
    simpa using (mapGet_writeAll fetchVulns
      (packageNames.filter (fun n => !(mapHas cache n)))
      ((partitionCached cache packageNames [] []).1, cache) x).2
  refine ⟨?_, ?_, ?_, ?_, ?_⟩
  · intro n hn
    rw [hres n]
    by_cases h : mapHas cache n = true
    · rw [if_neg (by simp [List.mem_filter, h])]
      rw [mapGet_partitionCached_fst, if_pos ⟨hn, h⟩]
      obtain ⟨v, hv⟩ := Option.isSome_iff_exists.mp h
      rw [hv]
    · rw [if_pos (List.mem_filter.mpr ⟨hn, by simp [h]⟩)]
      have hnone : mapGet cache n = none := by
        rcases hx : mapGet cache n with _ | v
        · rfl
        · exact absurd (by simp [mapHas, hx]) h
      rw [hnone]
  · intro n h
    rw [hq]
    simp [List.mem_filter, h]
  · intro n hn
    rw [hq] at hn
    rw [hcache n, if_pos hn]
  · intro n hn h
    rw [hq]
    exact List.mem_filter.mpr ⟨hn, by simp [h]⟩
  · intro n hn h hf
    rw [hres n, if_pos (List.mem_filter.mpr ⟨hn, by simp [h]⟩)]
    simp [queryVulnerabilities, hf]

/-- Oracle for the C4 witness: pkg-b answers with one finding, every
other name fails. -/
def osvFetchExample : String → Option (List Vuln) := fun n =>
  if n = "pkg-b" then some [⟨some "CVE-NEW", "fresh"⟩] else none

/-- Pre-seeded cache for the C4 witness. -/
def osvCacheExample : VulnMap := [("pkg-a", [⟨some "CVE-CACHED", "cached"⟩])]

/-- C4 witness: pkg-a is served from the cache and never queried, pkg-b
gets its fetched finding, and the failed query for pkg-c degrades to an
empty list. -/
theorem claim_C4_witness :
    mapGet (queryVulnerabilitiesBatch osvFetchExample ["pkg-a", "pkg-b", "pkg-c"]
        osvCacheExample 5).results "pkg-a" = some [⟨some "CVE-CACHED", "cached"⟩] ∧
    mapGet (queryVulnerabilitiesBatch osvFetchExample ["pkg-a", "pkg-b", "pkg-c"]
        osvCacheExample 5).results "pkg-b" = some [⟨some "CVE-NEW", "fresh"⟩] ∧
    mapGet (queryVulnerabilitiesBatch osvFetchExample ["pkg-a", "pkg-b", "pkg-c"]
        osvCacheExample 5).results "pkg-c" = some [] ∧
    "pkg-a" ∉ (queryVulnerabilitiesBatch osvFetchExample ["pkg-a", "pkg-b", "pkg-c"]
        osvCacheExample 5).queried := by
  have h := claim_C4_batch osvFetchExample 5 ["pkg-a", "pkg-b", "pkg-c"] osvCacheExample
  refine ⟨?_, ?_, ?_, h.2.1 "pkg-a" (by decide)⟩
  · exact (h.1 "pkg-a" (by simp)).trans (by decide)
  · exact (h.1 "pkg-b" (by simp)).trans (by decide)
  · exact (h.1 "pkg-c" (by simp)).trans (by decide)

/-- JavaScript truthiness of vuln.id in the dedup guard: present and not
the empty string. -/
def hasVulnId (v : Vuln) : Bool :=
  match v.id with
  | some i => i ≠ ""
  | none => false

/-- The identifier of a finding, defaulting to the empty string; only
read under hasVulnId. -/
def vulnKey (v : Vuln) : String := v.id.getD ""

/-- The body of the dedup loop of deduplicateVulnerabilities
(src/api/osv.js, lines 193 to 199): a finding with a truthy, unseen
identifier is recorded, everything else is skipped. -/
def dedupStep (seen : List (String × Vuln)) (vuln : Vuln) : List (String × Vuln) :=
  match vuln.id with
  | some i => if i ≠ "" ∧ ¬ (mapHas seen i = true) then mapSet seen i vuln else seen
  | none => seen

/-- deduplicateVulnerabilities from src/api/osv.js (lines 190 to 202):
iterate the per-package map in insertion order, each finding list in list
order, keep the first finding per identifier, return the recorded values
in insertion order. -/
def deduplicateVulnerabilities (vulnsByPackage : VulnMap) : List Vuln :=
  (vulnsByPackage.foldl (fun seen entry => entry.2.foldl dedupStep seen) []).map Prod.snd

/-- All findings of the map, packages in map order, findings in list
order. -/
def vulnStream (vulnsByPackage : VulnMap) : List Vuln :=
  (vulnsByPackage.map Prod.snd).flatten

/-- Specification-side first-occurrence recursion over the flattened
stream, carrying the set of already-kept identifiers. -/
def dedupPairs : List Vuln → List String → List (String × Vuln)
  | [], _ => []
  | v :: rest, ids =>
    if hasVulnId v = true ∧ vulnKey v ∉ ids then
      (vulnKey v, v) :: dedupPairs rest (vulnKey v :: ids)
    else dedupPairs rest ids

theorem hasVulnId_some (v : Vuln) (h : hasVulnId v = true) :
    v.id = some (vulnKey v) ∧ vulnKey v ≠ "" := by
  rcases hv : v.id with _ | i
  · simp [hasVulnId, hv] at h
  · constructor
    · simp [vulnKey, hv]
    · have : vulnKey v = i := by simp [vulnKey, hv]
      rw [this]
      simpa [hasVulnId, hv] using h

theorem id_ne_of_key_ne (v w : Vuln) (hv : hasVulnId v = true)
    (hw : hasVulnId w = true) (h : vulnKey v ≠ vulnKey w) : v.id ≠ w.id := by
  rw [(hasVulnId_some v hv).1, (hasVulnId_some w hw).1]
  simpa using h

theorem key_eq_of_id_eq (v w : Vuln) (h : v.id = w.id) : vulnKey v = vulnKey w := by
  simp [vulnKey, h]

theorem hasVulnId_eq_of_id_eq (v w : Vuln) (h : v.id = w.id) :
    hasVulnId v = hasVulnId w := by
  simp [hasVulnId, h]

theorem dedupPairs_congr (l : List Vuln) : ∀ ids1 ids2,
    (∀ x, x ∈ ids1 ↔ x ∈ ids2) → dedupPairs l ids1 = dedupPairs l ids2 := by
  induction l with
  | nil => intro ids1 ids2 h; rfl
  | cons v rest ih =>
    intro ids1 ids2 hiff
    simp only [dedupPairs]
    by_cases h : hasVulnId v = true ∧ vulnKey v ∉ ids1
    · rw [if_pos h, if_pos ⟨h.1, fun hx => h.2 ((hiff _).mpr hx)⟩]
      congr 1
      refine ih _ _ (fun x => ?_)
      simp only [List.mem_cons]
      constructor
      · rintro (rfl | hx)
        · exact Or.inl rfl
        · exact Or.inr ((hiff x).mp hx)
      · rintro (rfl | hx)
        · exact Or.inl rfl
        · exact Or.inr ((hiff x).mpr hx)
    · rw [if_neg h, if_neg (fun hc => h ⟨hc.1, fun hx => hc.2 ((hiff _).mp hx)⟩)]
      exact ih _ _ hiff

theorem foldl_dedupStep_eq (l : List Vuln) : ∀ (seen : List (String × Vuln)),
    l.foldl dedupStep seen = seen ++ dedupPairs l (seen.map Prod.fst) := by
  induction l with
  | nil => intro seen; simp [dedupPairs]
  | cons v rest ih =>
    intro seen
    rw [List.foldl_cons]
    rcases hid : v.id with _ | i
    · rw [show dedupStep seen v = seen from by simp [dedupStep, hid]]
      rw [ih]
      congr 1
      rw [dedupPairs, if_neg]
      intro hc
      have := hc.1
      simp [hasVulnId, hid] at this
    · have hkey : vulnKey v = i := by simp [vulnKey, hid]
      by_cases hcond : i ≠ "" ∧ ¬ (mapHas seen i = true)
      · rw [show dedupStep seen v = mapSet seen i v from by
            simp only [dedupStep, hid]
            rw [if_pos hcond]]
        rw [mapSet_eq_append seen i v hcond.2, ih, List.map_append]
        have hh : hasVulnId v = true ∧ vulnKey v ∉ seen.map Prod.fst := by
          constructor
          · simp [hasVulnId, hid]
            exact hcond.1
          · rw [hkey]
            intro hin
            exact hcond.2 ((mapHas_iff_mem_keys seen i).mpr hin)
        rw [dedupPairs, if_pos hh]
        rw [List.append_assoc]
        congr 1
        simp only [List.map_cons, List.map_nil, List.singleton_append, hkey]
        congr 1
        refine dedupPairs_congr rest _ _ (fun x => ?_)
        simp only [List.mem_append, List.mem_cons, List.mem_singleton,
          List.not_mem_nil, or_false]
        tauto
      · rw [show dedupStep seen v = seen from by
            simp only [dedupStep, hid]
            rw [if_neg hcond]]
        rw [ih]
        congr 1
        rw [dedupPairs, if_neg]
        intro hc
        rcases not_and_or.mp hcond with hi | hhas
        · have : i = "" := not_not.mp hi
          subst this
          have := hc.1
          simp [hasVulnId, hid] at this
        · have : mapHas seen i = true := not_not.mp hhas
          exact hc.2 (hkey ▸ (mapHas_iff_mem_keys seen i).mp this)

theorem dedup_eq_stream_foldl (m : VulnMap) :
    m.foldl (fun seen entry => entry.2.foldl dedupStep seen) [] =
      (vulnStream m).foldl dedupStep [] := by
  rw [vulnStream, List.foldl_flatten, List.foldl_map]

theorem mem_dedupPairs (l : List Vuln) : ∀ (ids : List String) (v : Vuln),
    v ∈ (dedupPairs l ids).map Prod.snd ↔
      hasVulnId v = true ∧ vulnKey v ∉ ids ∧
        l.find? (fun w => w.id == v.id) = some v := by
  induction l with
  | nil => simp [dedupPairs]
  | cons w rest ih =>
    intro ids v
    simp only [dedupPairs]
    by_cases hw : hasVulnId w = true ∧ vulnKey w ∉ ids
    · rw [if_pos hw]
      simp only [List.map_cons, List.mem_cons]
      constructor
      · rintro (rfl | hv)
        · refine ⟨hw.1, hw.2, ?_⟩
          rw [List.find?_cons_of_pos _ (by simp)]
        · obtain ⟨h1, h2, h3⟩ := (ih _ v).mp hv
          have hkne : vulnKey v ≠ vulnKey w :=
            fun he => h2 (he ▸ List.mem_cons_self _ _)
          have hidne : w.id ≠ v.id :=
            fun he => (id_ne_of_key_ne v w h1 hw.1 hkne) he.symm
          refine ⟨h1, fun hin => h2 (List.mem_cons_of_mem _ hin), ?_⟩
          rw [List.find?_cons_of_neg _ (by simp [hidne])]
          exact h3
      · rintro ⟨h1, h2, h3⟩
        by_cases hid : w.id = v.id
        · left
          rw [List.find?_cons_of_pos _ (by simp [hid])] at h3
          exact (Option.some.injEq _ _ ▸ h3 : w = v).symm ▸ rfl
        · right
          rw [List.find?_cons_of_neg _ (by simp [hid])] at h3
          refine (ih _ v).mpr ⟨h1, fun hin => ?_, h3⟩
          rcases List.mem_cons.mp hin with he | hin2
          · exact hid (((hasVulnId_some v h1).1.trans (he ▸ (hasVulnId_some w hw.1).1.symm)).symm)
          · exact h2 hin2
    · rw [if_neg hw]
      rw [ih _ v]
      by_cases hid : w.id = v.id
      · constructor
        · rintro ⟨h1, h2, h3⟩
          exfalso
          rcases not_and_or.mp hw with hw1 | hw2
          · exact (by simpa [hasVulnId_eq_of_id_eq w v hid] using hw1 : ¬ hasVulnId v = true) h1
          · exact h2 ((key_eq_of_id_eq v w hid.symm) ▸ not_not.mp hw2)
        · rintro ⟨h1, h2, h3⟩
          exfalso
          rw [List.find?_cons_of_pos _ (by simp [hid])] at h3
          have hwv : w = v := by simpa using h3
          subst hwv
          rcases not_and_or.mp hw with hw1 | hw2
          · exact hw1 h1
          · exact h2 (not_not.mp hw2)
      · rw [List.find?_cons_of_neg _ (by simp [hid])]

theorem dedupPairs_keys (l : List Vuln) : ∀ ids,
    (dedupPairs l ids).map Prod.fst =
      ((dedupPairs l ids).map Prod.snd).map vulnKey := by
  induction l with
  | nil => intro ids; rfl
  | cons v rest ih =>
    intro ids
    simp only [dedupPairs]
    by_cases h : hasVulnId v = true ∧ vulnKey v ∉ ids
    · rw [if_pos h]
      simp [ih]
    · rw [if_neg h]
      exact ih ids

theorem dedupPairs_keys_nodup (l : List Vuln) : ∀ ids,
    ((dedupPairs l ids).map Prod.fst).Nodup ∧
      ∀ i ∈ (dedupPairs l ids).map Prod.fst, i ∉ ids := by
  induction l with
  | nil => simp [dedupPairs]
  | cons v rest ih =>
    intro ids
    simp only [dedupPairs]
    by_cases h : hasVulnId v = true ∧ vulnKey v ∉ ids
    · rw [if_pos h]
      obtain ⟨ihn, ihd⟩ := ih (vulnKey v :: ids)
      simp only [List.map_cons]
      constructor
      · exact List.nodup_cons.mpr
          ⟨fun hin => (ihd _ hin) (List.mem_cons_self _ _), ihn⟩
      · intro i hi
        rcases List.mem_cons.mp hi with rfl | hi2
        · exact h.2
        · exact fun hin => ihd _ hi2 (List.mem_cons_of_mem _ hin)
    · rw [if_neg h]
      exact ih ids

theorem dedupPairs_cover (l : List Vuln) : ∀ ids (v : Vuln), v ∈ l →
    hasVulnId v = true → vulnKey v ∉ ids →
    ∃ w ∈ (dedupPairs l ids).map Prod.snd, w.id = v.id := by
  induction l with
  | nil => simp
  | cons u rest ih =>
    intro ids v hv hid hnin
    simp only [dedupPairs]
    by_cases h : hasVulnId u = true ∧ vulnKey u ∉ ids
    · rw [if_pos h]
      simp only [List.map_cons, List.mem_cons]
      by_cases hku : vulnKey v = vulnKey u
      · refine ⟨u, Or.inl rfl, ?_⟩
        rw [(hasVulnId_some u h.1).1, (hasVulnId_some v hid).1, hku]
      · rcases List.mem_cons.mp hv with rfl | hv2
        · exact absurd rfl hku
        · obtain ⟨w, hw1, hw2⟩ := ih (vulnKey u :: ids) v hv2 hid
            (fun hin => (List.mem_cons.mp hin).elim hku hnin)
          exact ⟨w, Or.inr hw1, hw2⟩
    · rw [if_neg h]
      rcases List.mem_cons.mp hv with rfl | hv2
      · exact absurd ⟨hid, hnin⟩ h
      · exact ih ids v hv2 hid hnin

/-- C5: the deduplicated list holds exactly the findings with a (truthy)
identifier that are the first occurrence of that identifier in the
stream of packages in request order and findings in list order; its
identifiers are pairwise distinct; and every identifier present in the
stream is represented. -/
theorem claim_C5_dedup (vulnsByPackage : VulnMap) :
    (∀ v, v ∈ deduplicateVulnerabilities vulnsByPackage ↔
      hasVulnId v = true ∧
        (vulnStream vulnsByPackage).find? (fun w => w.id == v.id) = some v) ∧
    ((deduplicateVulnerabilities vulnsByPackage).map vulnKey).Nodup ∧
    (∀ v ∈ vulnStream vulnsByPackage, hasVulnId v = true →
      ∃ w ∈ deduplicateVulnerabilities vulnsByPackage, w.id = v.id) := by
  have hd : deduplicateVulnerabilities vulnsByPackage =
      (dedupPairs (vulnStream vulnsByPackage) []).map Prod.snd := by
    rw [deduplicateVulnerabilities, dedup_eq_stream_foldl, foldl_dedupStep_eq]
    simp
  refine ⟨fun v => ?_, ?_, fun v hv hid => ?_⟩
  · rw [hd, mem_dedupPairs]
    simp
  · rw [hd, ← dedupPairs_keys]
    exact (dedupPairs_keys_nodup _ []).1
  · rw [hd]
    exact dedupPairs_cover _ [] v hv hid (List.not_mem_nil _)

/-- C5 witness: CVE-1 appears under pkg-a (processed first) and pkg-b;
the kept copy is the one from pkg-a, the pkg-b copy is dropped, and the
finding without an identifier is excluded. -/
theorem claim_C5_witness :
    Vuln.mk (some "CVE-1") "from-a" ∈ deduplicateVulnerabilities
      [("pkg-a", [⟨some "CVE-1", "from-a"⟩]),
       ("pkg-b", [⟨some "CVE-1", "from-b"⟩, ⟨none, "no-id"⟩])] ∧
    Vuln.mk (some "CVE-1") "from-b" ∉ deduplicateVulnerabilities
      [("pkg-a", [⟨some "CVE-1", "from-a"⟩]),
       ("pkg-b", [⟨some "CVE-1", "from-b"⟩, ⟨none, "no-id"⟩])] ∧
    Vuln.mk none "no-id" ∉ deduplicateVulnerabilities
      [("pkg-a", [⟨some "CVE-1", "from-a"⟩]),
       ("pkg-b", [⟨some "CVE-1", "from-b"⟩, ⟨none, "no-id"⟩])] := by
  have h := claim_C5_dedup
    [("pkg-a", [⟨some "CVE-1", "from-a"⟩]),
     ("pkg-b", [⟨some "CVE-1", "from-b"⟩, ⟨none, "no-id"⟩])]
  refine ⟨(h.1 _).mpr (by decide), fun hc => ?_, fun hc => ?_⟩
  · have hx := (h.1 _).mp hc
    revert hx
    decide
  · have hx := (h.1 _).mp hc
    revert hx
    decide

/-! Graph extraction (src/api/depsDev.js, extractPackagesFromGraph) and
the version-fallback search of getTransitiveCVEMetrics
(src/analyzer.js, lines 120 to 168). -/

/-- A node of the deps.dev dependency graph; versionKey may be absent. -/
structure GraphNode where
  versionKey : Option (String × String)
  relation : Option String
deriving DecidableEq, Repr

/-- The graph response; the nodes field may be absent. -/
structure DependencyGraph where
  nodes : Option (List GraphNode)
deriving DecidableEq, Repr

/-- One entry of the tree package list. -/
structure PackageRef where
  name : String
  version : String
  relation : String
deriving DecidableEq, Repr

/-- JavaScript `s || d` on an optional string: absent or empty yields the
default. -/
def jsStrOr (s : Option String) (d : String) : String :=
  match s with
  | some x => if x = "" then d else x
  | none => d

/-- The dedup loop of extractPackagesFromGraph: the seen set holds the
concatenated name-at-version keys exactly as the source builds them. -/
def extractNodes : List GraphNode → List String → List PackageRef
  | [], _ => []
  | node :: rest, seen =>
    match node.versionKey with
    | none => extractNodes rest seen
    | some (name, version) =>
      let key := name ++ "@" ++ version
      if key ∈ seen then extractNodes rest seen
      else
        { name := name, version := version,
          relation := jsStrOr node.relation "UNKNOWN" } :: extractNodes rest (key :: seen)

/-- extractPackagesFromGraph from src/api/depsDev.js (lines 228 to 253). -/
def extractPackagesFromGraph (dependencyGraph : Option DependencyGraph) :
    List PackageRef :=
  match dependencyGraph with
  | none => []
  | some g =>
    match g.nodes with
    | none => []
    | some nodes => extractNodes nodes []

/-- One entry of packageInfo.versions: versionKey?.version and
publishedAt (absent publish dates sort as epoch 0, matching
`new Date(a.publishedAt || 0)`). -/
structure VersionEntry where
  version : Option String
  publishedAt : Option ℤ
deriving DecidableEq, Repr

/-- Sort key: the publish timestamp, absent treated as 0. -/
def versionSortKey (e : VersionEntry) : ℤ := e.publishedAt.getD 0

/-- Newest-first comparison: the comparator dateB - dateA sorts
descending by publish date. -/
def publishedDesc (a b : VersionEntry) : Prop :=
  versionSortKey b ≤ versionSortKey a

instance : DecidableRel publishedDesc := fun _ _ => Int.decLe _ _

instance : IsTotal VersionEntry publishedDesc := ⟨fun _ _ => Int.le_total _ _⟩

instance : IsTrans VersionEntry publishedDesc := ⟨fun _ _ _ h1 h2 => Int.le_trans h2 h1⟩

/-- The stable newest-first sort of packageInfo.versions
(src/analyzer.js, lines 135 to 139). -/
def sortVersionsDesc (versions : List VersionEntry) : List VersionEntry :=
  versions.insertionSort publishedDesc

/-- The fallback loop body (lines 142 to 154): walk the entries, skip
those without a truthy version or equal to the already-tried version,
return the first for which the graph endpoint succeeds. -/
def tryFallbacks (graphOf : String → Option DependencyGraph)
    (resolvedVersion : String) : List VersionEntry → Option (String × DependencyGraph)
  | [] => none
  | e :: rest =>
    match e.version with
    | some fv =>
      if fv ≠ "" ∧ fv ≠ resolvedVersion then
        match graphOf fv with
        | some g => some (fv, g)
        | none => tryFallbacks graphOf resolvedVersion rest
      else tryFallbacks graphOf resolvedVersion rest
    | none => tryFallbacks graphOf resolvedVersion rest

/-- Outcome of step 2 of getTransitiveCVEMetrics for a resolved version:
the version whose graph is used from here on, the graph if any, the tree
package list, and whether a fallback version was adopted. -/
structure GraphResolution where
  resolvedVersion : String
  graph : Option DependencyGraph
  treePackages : List PackageRef
  usedFallback : Bool
deriving DecidableEq, Repr

/-- Step 2 of getTransitiveCVEMetrics (src/analyzer.js, lines 120 to
168), for a package whose version resolution produced resolvedVersion:
fetch the graph; when unavailable and version metadata is present, try
the graph endpoint over the first 10 entries of the newest-first sorted
version list, skipping the already-tried version, adopting the first
success; when everything fails, degrade to the single root package. -/
def resolveGraphWithFallback (graphOf : String → Option DependencyGraph)
    (packageName : String) (versions : Option (List VersionEntry))
    (resolvedVersion : String) : GraphResolution :=
  match graphOf resolvedVersion with
  | some g =>
    { resolvedVersion := resolvedVersion, graph := some g,
      treePackages := extractPackagesFromGraph (some g), usedFallback := false }
  | none =>
    match versions with
    | some vs =>
      match tryFallbacks graphOf resolvedVersion ((sortVersionsDesc vs).take 10) with
      | some (fv, g) =>
        { resolvedVersion := fv, graph := some g,
          treePackages := extractPackagesFromGraph (some g), usedFallback := true }
      | none =>
        { resolvedVersion := resolvedVersion, graph := none,
          treePackages := [⟨packageName, resolvedVersion, "SELF"⟩],
          usedFallback := false }
    | none =>
      { resolvedVersion := resolvedVersion, graph := none,
        treePackages := [⟨packageName, resolvedVersion, "SELF"⟩],
        usedFallback := false }

/-- The ordered list of fallback successes: entries with a truthy
version other than the already-tried one for which the graph endpoint
succeeds, in list order. -/
def fallbackCandidates (graphOf : String → Option DependencyGraph)
    (resolvedVersion : String) (l : List VersionEntry) :
    List (String × DependencyGraph) :=
  l.filterMap (fun e => e.version.bind (fun v =>
    if v ≠ "" ∧ v ≠ resolvedVersion then (graphOf v).map (fun g => (v, g))
    else none))

theorem tryFallbacks_eq_head (graphOf : String → Option DependencyGraph)
    (resolvedVersion : String) (l : List VersionEntry) :
    tryFallbacks graphOf resolvedVersion l =
      (fallbackCandidates graphOf resolvedVersion l).head? := by
  induction l with
  | nil => rfl
  | cons e rest ih =>
    simp only [tryFallbacks, fallbackCandidates, List.filterMap_cons]
    rcases hv : e.version with _ | fv
    · simpa [fallbackCandidates] using ih
    · simp only [Option.some_bind]
      by_cases hc : fv ≠ "" ∧ fv ≠ resolvedVersion
      · rw [if_pos hc, if_pos hc]
        rcases hg : graphOf fv with _ | g
        · simpa [fallbackCandidates] using ih
        · simp
      · rw [if_neg hc, if_neg hc]
        simpa [fallbackCandidates] using ih

/-- C6: when the graph is unavailable for the originally resolved
version, the engine takes the first 10 entries of the version list
sorted newest-first (the sort is proved sorted by descending publish
date and a permutation of the input, and its take has at most 10
entries), skips the already-tried version, adopts the first entry whose
graph query succeeds as the new resolved version, and when no candidate
succeeds degrades to the single root package; when the graph is
available the resolved version is kept and no fallback occurs; with no
version metadata it degrades directly. -/
theorem claim_C6_graph_fallback (graphOf : String → Option DependencyGraph)
    (packageName resolvedVersion : String) (versions : List VersionEntry) :
    (graphOf resolvedVersion = none →
      resolveGraphWithFallback graphOf packageName (some versions) resolvedVersion =
        (match (fallbackCandidates graphOf resolvedVersion
            ((sortVersionsDesc versions).take 10)).head? with
         | some (fv, g) =>
           { resolvedVersion := fv, graph := some g,
             treePackages := extractPackagesFromGraph (some g), usedFallback := true }
         | none =>
           { resolvedVersion := resolvedVersion, graph := none,
             treePackages := [⟨packageName, resolvedVersion, "SELF"⟩],
             usedFallback := false })) ∧
    (∀ g, graphOf resolvedVersion = some g →
      resolveGraphWithFallback graphOf packageName (some versions) resolvedVersion =
        { resolvedVersion := resolvedVersion, graph := some g,
          treePackages := extractPackagesFromGraph (some g), usedFallback := false }) ∧
    (graphOf resolvedVersion = none →
      resolveGraphWithFallback graphOf packageName none resolvedVersion =
        { resolvedVersion := resolvedVersion, graph := none,
          treePackages := [⟨packageName, resolvedVersion, "SELF"⟩],
          usedFallback := false }) ∧
    (sortVersionsDesc versions).Sorted publishedDesc ∧
    List.Perm (sortVersionsDesc versions) versions ∧
    ((sortVersionsDesc versions).take 10).length ≤ 10 := by
  refine ⟨?_, ?_, ?_, List.sorted_insertionSort _ _, List.perm_insertionSort _ _,
    List.length_take_le _ _⟩
  · intro hg
    simp only [resolveGraphWithFallback, hg]
    rw [tryFallbacks_eq_head]
  · intro g hg
    simp only [resolveGraphWithFallback, hg]
  · intro hg
    simp only [resolveGraphWithFallback, hg]

/-- Graph oracle for the C6 witness: only version 2.0.0 has a graph. -/
def graphOfExample : String → Option DependencyGraph := fun v =>
  if v = "2.0.0" then
    some ⟨some [⟨some ("left-pad", "2.0.0"), some "SELF"⟩,
                ⟨some ("dep-x", "1.1.0"), some "DIRECT"⟩]⟩
  else none

/-- Version history for the C6 witness: 2.1.0 is newest but has no
graph, 2.0.0 is next, 1.0.0 is the already-tried resolved version. -/
def versionsExample : List VersionEntry :=
  [⟨some "1.0.0", some 100⟩, ⟨some "2.1.0", some 300⟩, ⟨some "2.0.0", some 200⟩]

/-- C6 witness: the graph for the resolved version 1.0.0 is unavailable;
the newest version 2.1.0 also fails, so the engine adopts 2.0.0, whose
extracted tree is returned; with the version list withheld it degrades
to the single root. -/
theorem claim_C6_witness :
    resolveGraphWithFallback graphOfExample "left-pad" (some versionsExample) "1.0.0" =
      { resolvedVersion := "2.0.0",
        graph := some ⟨some [⟨some ("left-pad", "2.0.0"), some "SELF"⟩,
                             ⟨some ("dep-x", "1.1.0"), some "DIRECT"⟩]⟩,
        treePackages := [⟨"left-pad", "2.0.0", "SELF"⟩, ⟨"dep-x", "1.1.0", "DIRECT"⟩],
        usedFallback := true } ∧
    resolveGraphWithFallback graphOfExample "left-pad" none "1.0.0" =
      { resolvedVersion := "1.0.0", graph := none,
        treePackages := [⟨"left-pad", "1.0.0", "SELF"⟩], usedFallback := false } := by
  have h := claim_C6_graph_fallback graphOfExample "left-pad" "1.0.0" versionsExample
  constructor
  · rw [h.1 (by decide)]
    decide
  · exact h.2.2.1 (by decide)

/-! Version resolution (src/utils/version.js, in src/unnamed/part_003).
The external semver library is modelled on the grammar the spec names:
concrete major.minor.patch versions, caret and tilde ranges, comparison
operators, and compound AND-joined ranges separated by whitespace.
Constraints outside this grammar parse to none and resolve to null, and
prerelease or build tags are not modelled. -/

/-- A parsed semantic version. -/
structure SemVer where
  major : ℕ
  minor : ℕ
  patch : ℕ
deriving DecidableEq, Repr

/-- Lexicographic non-strict order on versions. -/
def svLe (a b : SemVer) : Prop :=
  a.major < b.major ∨ (a.major = b.major ∧
    (a.minor < b.minor ∨ (a.minor = b.minor ∧ a.patch ≤ b.patch)))

/-- Lexicographic strict order on versions. -/
def svLt (a b : SemVer) : Prop :=
  a.major < b.major ∨ (a.major = b.major ∧
    (a.minor < b.minor ∨ (a.minor = b.minor ∧ a.patch < b.patch)))

instance (a b : SemVer) : Decidable (svLe a b) := by
  unfold svLe
  exact inferInstance

instance (a b : SemVer) : Decidable (svLt a b) := by
  unfold svLt
  exact inferInstance

theorem svLe_refl (a : SemVer) : svLe a a := by unfold svLe; omega

theorem svLe_trans (a b c : SemVer) (h1 : svLe a b) (h2 : svLe b c) : svLe a c := by
  unfold svLe at h1 h2 ⊢
  omega

theorem svLe_of_svLt (a b : SemVer) (h : svLt a b) : svLe a b := by
  unfold svLt at h
  unfold svLe
  omega

theorem svLe_of_not_svLt (a b : SemVer) (h : ¬ svLt a b) : svLe b a := by
  unfold svLt at h
  unfold svLe
  omega

/-- Split a character list on a separator; always returns at least one
group, possibly empty groups for adjacent separators. -/
def splitOnChar (c : Char) : List Char → List (List Char)
  | [] => [[]]
  | x :: xs =>
    match splitOnChar c xs with
    | [] => [[]]
    | g :: gs => if x = c then [] :: g :: gs else (x :: g) :: gs

/-- Parse one numeric identifier: nonempty, digits only, no leading zero
unless the single digit 0 (standard semver numeric identifier rules). -/
def parseNumPart (cs : List Char) : Option ℕ :=
  if cs = [] then none
  else if ¬ cs.all (·.isDigit) then none
  else if cs.head? = some '0' ∧ cs.length > 1 then none
  else some (cs.foldl (fun acc c => acc * 10 + (c.toNat - 48)) 0)

/-- Parse a concrete major.minor.patch version from characters. -/
def parseVersionChars (cs : List Char) : Option SemVer :=
  match splitOnChar '.' cs with
  | [a, b, c] =>
    match parseNumPart a, parseNumPart b, parseNumPart c with
    | some x, some y, some z => some ⟨x, y, z⟩
    | _, _, _ => none
  | _ => none

/-- The model of semver.valid, as a parser: some for a syntactically
valid concrete version, none otherwise. -/
def parseVersion (s : String) : Option SemVer := parseVersionChars s.toList

/-- Comparison operators of the range grammar. -/
inductive CmpOp
  | ge
  | gt
  | le
  | lt
  | eq
deriving DecidableEq, Repr

/-- One token of a range: caret, tilde, an operator comparison, or (as
cmp eq) a plain version. -/
inductive RangeTok
  | caret (v : SemVer)
  | tilde (v : SemVer)
  | cmp (op : CmpOp) (v : SemVer)
deriving DecidableEq, Repr

/-- Exclusive upper bound of a caret range: next major, or next minor
when major is 0, or next patch when major and minor are 0. -/
def caretUpper (v : SemVer) : SemVer :=
  if v.major > 0 then ⟨v.major + 1, 0, 0⟩
  else if v.minor > 0 then ⟨0, v.minor + 1, 0⟩
  else ⟨0, 0, v.patch + 1⟩

/-- Satisfaction of one range token. -/
def satTok (t : RangeTok) (x : SemVer) : Prop :=
  match t with
  | .caret v => svLe v x ∧ svLt x (caretUpper v)
  | .tilde v => svLe v x ∧ svLt x ⟨v.major, v.minor + 1, 0⟩
  | .cmp .ge v => svLe v x
  | .cmp .gt v => svLt v x
  | .cmp .le v => svLe x v
  | .cmp .lt v => svLt x v
  | .cmp .eq v => x = v

instance (t : RangeTok) (x : SemVer) : Decidable (satTok t x) := by
  rcases t with v | v | ⟨op, v⟩
  · dsimp only [satTok]
    exact inferInstance
  · dsimp only [satTok]
    exact inferInstance
  · rcases op <;> (dsimp only [satTok]; exact inferInstance)

/-- A version satisfies a compound range when it satisfies every
AND-joined token. -/
def satisfiesRange (toks : List RangeTok) (x : SemVer) : Prop :=
  ∀ t ∈ toks, satTok t x

instance (toks : List RangeTok) (x : SemVer) : Decidable (satisfiesRange toks x) :=
  List.decidableBAll _ toks

/-- Parse one whitespace-separated range token. -/
def parseTok (cs : List Char) : Option RangeTok :=
  match cs with
  | '^' :: rest => (parseVersionChars rest).map RangeTok.caret
  | '~' :: rest => (parseVersionChars rest).map RangeTok.tilde
  | '>' :: '=' :: rest => (parseVersionChars rest).map (RangeTok.cmp .ge)
  | '<' :: '=' :: rest => (parseVersionChars rest).map (RangeTok.cmp .le)
  | '>' :: rest => (parseVersionChars rest).map (RangeTok.cmp .gt)
  | '<' :: rest => (parseVersionChars rest).map (RangeTok.cmp .lt)
  | '=' :: rest => (parseVersionChars rest).map (RangeTok.cmp .eq)
  | _ => (parseVersionChars cs).map (RangeTok.cmp .eq)

/-- Parse a compound range: whitespace-separated tokens, all of which
must parse; constraints outside the modelled grammar yield none. -/
def parseRange (s : String) : Option (List RangeTok) :=
  ((splitOnChar ' ' s.toList).filter (· ≠ [])).mapM parseTok

/-- One scan step of maxSatisfying: keep the running best, replacing it
by the current version when that parses, satisfies the range, and is
strictly higher than the best so far. -/
def maxStep (toks : List RangeTok) (best : Option String) (v : String) : Option String :=
  match parseVersion v with
  | none => best
  | some pv =>
    if satisfiesRange toks pv then
      match best with
      | none => some v
      | some b =>
        match parseVersion b with
        | some pb => if svLt pb pv then some v else best
        | none => some v
    else best

/-- The model of semver.maxSatisfying: none for an unparsable range,
otherwise the highest syntactically valid version satisfying the range,
scanning left to right and keeping the strictly greater. -/
def maxSatisfying (versions : List String) (range : String) : Option String :=
  match parseRange range with
  | none => none
  | some toks => versions.foldl (maxStep toks) none

/-- resolveVersion from src/utils/version.js (lines 13 to 26): fail on a
falsy constraint, an absent list, or an empty list; return a valid
concrete constraint only when present in the list; otherwise filter the
list to valid versions and take the highest satisfying one. -/
def resolveVersion (range : Option String)
    (availableVersions : Option (List String)) : Option String :=
  match range, availableVersions with
  | none, _ => none
  | some _, none => none
  | some r, some avail =>
    if r = "" ∨ avail = [] then none
    else if (parseVersion r).isSome then
      if r ∈ avail then some r else none
    else
      maxSatisfying (avail.filter (fun v => (parseVersion v).isSome)) r

/-- A version string that parses and satisfies the range. -/
def isCandidate (toks : List RangeTok) (v : String) : Prop :=
  ∃ pv, parseVersion v = some pv ∧ satisfiesRange toks pv

theorem maxStep_of_parse_none (toks : List RangeTok) (best : Option String)
    (v : String) (hv : parseVersion v = none) : maxStep toks best v = best := by
  simp [maxStep, hv]

theorem maxStep_of_not_sat (toks : List RangeTok) (best : Option String)
    (v : String) (pv : SemVer) (hv : parseVersion v = some pv)
    (hs : ¬ satisfiesRange toks pv) : maxStep toks best v = best := by
  simp [maxStep, hv, hs]

theorem maxStep_of_sat_none (toks : List RangeTok) (v : String) (pv : SemVer)
    (hv : parseVersion v = some pv) (hs : satisfiesRange toks pv) :
    maxStep toks none v = some v := by
  simp [maxStep, hv, hs]

theorem maxStep_of_sat_lt (toks : List RangeTok) (b v : String) (pb pv : SemVer)
    (hv : parseVersion v = some pv) (hs : satisfiesRange toks pv)
    (hb : parseVersion b = some pb) (hlt : svLt pb pv) :
    maxStep toks (some b) v = some v := by
  simp [maxStep, hv, hs, hb, hlt]

theorem maxStep_of_sat_ge (toks : List RangeTok) (b v : String) (pb pv : SemVer)
    (hv : parseVersion v = some pv) (hs : satisfiesRange toks pv)
    (hb : parseVersion b = some pb) (hlt : ¬ svLt pb pv) :
    maxStep toks (some b) v = some b := by
  simp [maxStep, hv, hs, hb, hlt]

theorem maxStep_of_sat_bad_best (toks : List RangeTok) (b v : String) (pv : SemVer)
    (hv : parseVersion v = some pv) (hs : satisfiesRange toks pv)
    (hb : parseVersion b = none) : maxStep toks (some b) v = some v := by
  simp [maxStep, hv, hs, hb]

theorem maxStep_cases (toks : List RangeTok) (best : Option String) (v : String) :
    maxStep toks best v = best ∨
      (maxStep toks best v = some v ∧ isCandidate toks v) := by
  rcases hv : parseVersion v with _ | pv
  · exact Or.inl (maxStep_of_parse_none toks best v hv)
  · by_cases hs : satisfiesRange toks pv
    · rcases best with _ | b
      · exact Or.inr ⟨maxStep_of_sat_none toks v pv hv hs, pv, hv, hs⟩
      · rcases hb : parseVersion b with _ | pb
        · exact Or.inr ⟨maxStep_of_sat_bad_best toks b v pv hv hs hb, pv, hv, hs⟩
        · by_cases hlt : svLt pb pv
          · exact Or.inr ⟨maxStep_of_sat_lt toks b v pb pv hv hs hb hlt, pv, hv, hs⟩
          · exact Or.inl (maxStep_of_sat_ge toks b v pb pv hv hs hb hlt)
    · exact Or.inl (maxStep_of_not_sat toks best v pv hv hs)

theorem maxStep_ne_none (toks : List RangeTok) (b : String) (v : String) :
    ∃ b2, maxStep toks (some b) v = some b2 := by
  rcases maxStep_cases toks (some b) v with h | ⟨h, _⟩
  · exact ⟨b, h⟩
  · exact ⟨v, h⟩

theorem foldl_maxStep_some (toks : List RangeTok) (versions : List String) :
    ∀ b, ∃ s, versions.foldl (maxStep toks) (some b) = some s := by
  induction versions with
  | nil => intro b; exact ⟨b, rfl⟩
  | cons v rest ih =>
    intro b
    rw [List.foldl_cons]
    obtain ⟨b2, hb2⟩ := maxStep_ne_none toks b v
    rw [hb2]
    exact ih b2

theorem maxStep_none_of_not_candidate (toks : List RangeTok) (best : Option String)
    (v : String) (h : ¬ isCandidate toks v) : maxStep toks best v = best := by
  rcases hv : parseVersion v with _ | pv
  · exact maxStep_of_parse_none toks best v hv
  · exact maxStep_of_not_sat toks best v pv hv (fun hs => h ⟨pv, hv, hs⟩)

theorem foldl_maxStep_none_iff (toks : List RangeTok) (versions : List String) :
    versions.foldl (maxStep toks) none = none ↔
      ∀ v ∈ versions, ¬ isCandidate toks v := by
  induction versions with
  | nil => simp
  | cons v rest ih =>
    rw [List.foldl_cons]
    by_cases hc : isCandidate toks v
    · obtain ⟨pv, hpv, hs⟩ := hc
      rw [maxStep_of_sat_none toks v pv hpv hs]
      obtain ⟨s, hs2⟩ := foldl_maxStep_some toks rest v
      rw [hs2]
      exact ⟨fun hcon => (Option.some_ne_none s hcon).elim,
        fun hall => absurd ⟨pv, hpv, hs⟩ (hall v (List.mem_cons_self _ _))⟩
    · rw [maxStep_none_of_not_candidate toks none v hc, ih]
      constructor
      · intro hall w hw
        rcases List.mem_cons.mp hw with rfl | hw2
        · exact hc
        · exact hall w hw2
      · intro hall w hw
        exact hall w (List.mem_cons_of_mem _ hw)

theorem foldl_maxStep_mem (toks : List RangeTok) (versions : List String) :
    ∀ (best : Option String) (s : String),
      versions.foldl (maxStep toks) best = some s →
      best = some s ∨ (s ∈ versions ∧ isCandidate toks s) := by
  induction versions with
  | nil => intro best s h; exact Or.inl h
  | cons v rest ih =>
    intro best s h
    rw [List.foldl_cons] at h
    rcases ih (maxStep toks best v) s h with h2 | ⟨h2, h3⟩
    · rcases maxStep_cases toks best v with h4 | ⟨h4, h5⟩
      · exact Or.inl (h4 ▸ h2)
      · rw [h4] at h2
        have : s = v := by injection h2.symm
        subst this
        exact Or.inr ⟨List.mem_cons_self _ _, h5⟩
    · exact Or.inr ⟨List.mem_cons_of_mem _ h2, h3⟩

theorem foldl_maxStep_mono (toks : List RangeTok) (versions : List String) :
    ∀ (b : String) (pb : SemVer) (s : String), parseVersion b = some pb →
      versions.foldl (maxStep toks) (some b) = some s →
      ∃ ps, parseVersion s = some ps ∧ svLe pb ps := by
  induction versions with
  | nil =>
    intro b pb s hb h
    have : b = s := by injection h
    subst this
    exact ⟨pb, hb, svLe_refl pb⟩
  | cons v rest ih =>
    intro b pb s hb h
    rw [List.foldl_cons] at h
    rcases hv : parseVersion v with _ | pv
    · rw [maxStep_of_parse_none toks (some b) v hv] at h
      exact ih b pb s hb h
    · by_cases hs : satisfiesRange toks pv
      · by_cases hlt : svLt pb pv
        · rw [maxStep_of_sat_lt toks b v pb pv hv hs hb hlt] at h
          obtain ⟨ps, hps, hle⟩ := ih v pv s hv h
          exact ⟨ps, hps, svLe_trans _ _ _ (svLe_of_svLt _ _ hlt) hle⟩
        · rw [maxStep_of_sat_ge toks b v pb pv hv hs hb hlt] at h
          exact ih b pb s hb h
      · rw [maxStep_of_not_sat toks (some b) v pv hv hs] at h
        exact ih b pb s hb h

theorem foldl_maxStep_dominates (toks : List RangeTok) (versions : List String) :
    ∀ (best : Option String) (s : String),
      versions.foldl (maxStep toks) best = some s →
      ∀ v ∈ versions, ∀ pv, parseVersion v = some pv → satisfiesRange toks pv →
        ∃ ps, parseVersion s = some ps ∧ svLe pv ps := by
  induction versions with
  | nil => intro best s h v hv; exact absurd hv (List.not_mem_nil v)
  | cons v0 rest ih =>
    intro best s h v hv pv hpv hsat
    rw [List.foldl_cons] at h
    rcases List.mem_cons.mp hv with rfl | hv2
    · have hstep : ∃ b2 pb2, maxStep toks best v = some b2 ∧
          parseVersion b2 = some pb2 ∧ svLe pv pb2 := by
        rcases best with _ | b
        · exact ⟨v, pv, maxStep_of_sat_none toks v pv hpv hsat, hpv, svLe_refl pv⟩
        · rcases hb : parseVersion b with _ | pb
          · exact ⟨v, pv, maxStep_of_sat_bad_best toks b v pv hpv hsat hb, hpv,
              svLe_refl pv⟩
          · by_cases hlt : svLt pb pv
            · exact ⟨v, pv, maxStep_of_sat_lt toks b v pb pv hpv hsat hb hlt, hpv,
                svLe_refl pv⟩
            · exact ⟨b, pb, maxStep_of_sat_ge toks b v pb pv hpv hsat hb hlt, hb,
                svLe_of_not_svLt _ _ hlt⟩
      obtain ⟨b2, pb2, hb2, hpb2, hle⟩ := hstep
      rw [hb2] at h
      obtain ⟨ps, hps, hle2⟩ := foldl_maxStep_mono toks rest b2 pb2 s hpb2 h
      exact ⟨ps, hps, svLe_trans _ _ _ hle hle2⟩
    · exact ih (maxStep toks best v0) s h v hv2 pv hpv hsat

/-- The published version list of the resolution examples in the spec
and the version test suite. -/
def availableVersionsExample : List String :=
  ["1.0.0", "1.2.0", "1.2.5", "2.0.0", "2.1.0", "3.0.0", "4.17.21", "4.18.0", "4.18.2"]

/-- C3: resolveVersion fails on an absent constraint, an absent list, an
empty list, or an empty constraint string; a valid concrete constraint
resolves to itself exactly when present in the list; any other
constraint resolves through maxSatisfying over the syntactically valid
published versions, which returns a member satisfying the range that
dominates every valid satisfying version, is none exactly when nothing
satisfies, and is none for an unparsable range; and the concrete
examples of the spec resolve as stated. -/
theorem claim_C3_resolve_version :
    (∀ avail, resolveVersion none avail = none) ∧
    (∀ r, resolveVersion (some r) none = none) ∧
    (∀ r, resolveVersion (some r) (some []) = none) ∧
    (∀ a, resolveVersion (some "") a = none) ∧
    (∀ r l pv, parseVersion r = some pv →
      resolveVersion (some r) (some l) = if r ∈ l then some r else none) ∧
    (∀ r l, r ≠ "" → l ≠ [] → parseVersion r = none →
      resolveVersion (some r) (some l) =
        maxSatisfying (l.filter (fun v => (parseVersion v).isSome)) r) ∧
    (∀ r l, parseRange r = none → maxSatisfying l r = none) ∧
    (∀ r l toks s, parseRange r = some toks → maxSatisfying l r = some s →
      s ∈ l ∧ ∃ ps, parseVersion s = some ps ∧ satisfiesRange toks ps ∧
        ∀ v ∈ l, ∀ pv, parseVersion v = some pv → satisfiesRange toks pv →
          svLe pv ps) ∧
    (∀ r l toks, parseRange r = some toks →
      (maxSatisfying l r = none ↔
        ∀ v ∈ l, ∀ pv, parseVersion v = some pv → ¬ satisfiesRange toks pv)) ∧
    (resolveVersion (some "2.1.0") (some availableVersionsExample) = some "2.1.0" ∧
      resolveVersion (some "5.0.0") (some availableVersionsExample) = none ∧
      resolveVersion (some "^4.18.0") (some availableVersionsExample) = some "4.18.2" ∧
      resolveVersion (some "~1.2.0") (some availableVersionsExample) = some "1.2.5" ∧
      resolveVersion (some ">=2.0.0") (some availableVersionsExample) = some "4.18.2" ∧
      resolveVersion (some ">=1.0.0 <3.0.0") (some availableVersionsExample) =
        some "2.1.0" ∧
      resolveVersion (some "^10.0.0") (some availableVersionsExample) = none ∧
      resolveVersion (some "^1.0.0") (some []) = none ∧
      resolveVersion none (some availableVersionsExample) = none) := by
  refine ⟨fun avail => rfl, fun r => rfl, ?_, ?_, ?_, ?_, ?_, ?_, ?_, ?_⟩
  · intro r
    simp [resolveVersion]
  · intro a
    rcases a with _ | avail
    · rfl
    · simp [resolveVersion]
  · intro r l pv hp
    have hr : r ≠ "" := by
      intro he
      subst he
      exact Option.noConfusion ((show parseVersion "" = none from rfl) ▸ hp)
    by_cases hl : l = []
    · subst hl
      simp [resolveVersion]
    · simp only [resolveVersion]
      rw [if_neg (by simp [hr, hl]), if_pos (by simp [hp])]
  · intro r l hr hl hp
    simp only [resolveVersion]
    rw [if_neg (by simp [hr, hl]), if_neg (by simp [hp])]
  · intro r l hpr
    simp only [maxSatisfying, hpr]
  · intro r l toks s hpr hmax
    simp only [maxSatisfying, hpr] at hmax
    rcases foldl_maxStep_mem toks l none s hmax with hcon | ⟨hmem, pc, hpc, hsc⟩
    · exact Option.noConfusion hcon
    · refine ⟨hmem, pc, hpc, hsc, ?_⟩
      intro v hv pv hpv hsat
      obtain ⟨ps, hps, hle⟩ := foldl_maxStep_dominates toks l none s hmax v hv pv hpv hsat
      have hpp : ps = pc := by
        rw [hps] at hpc
        injection hpc
      exact hpp ▸ hle
  · intro r l toks hpr
    simp only [maxSatisfying, hpr]
    rw [foldl_maxStep_none_iff]
    constructor
    · intro h v hv pv hpv hs
      exact h v hv ⟨pv, hpv, hs⟩
    · rintro h v hv ⟨pv, hpv, hs⟩
      exact h v hv pv hpv hs
  · refine ⟨?_, ?_, ?_, ?_, ?_, ?_, ?_, ?_, ?_⟩ <;> decide

/-- C3 witness: the exact-version clause applied at the concrete
constraint 2.1.0 over the example list yields 2.1.0. -/
theorem claim_C3_witness :
    resolveVersion (some "2.1.0") (some availableVersionsExample) = some "2.1.0" := by
  have h := (claim_C3_resolve_version).2.2.2.2.1 "2.1.0" availableVersionsExample
    ⟨2, 1, 0⟩ (by decide)
  rw [h]
  decide
